import Mathlib

/-!
# Micro Derby race engine (`src/App.jsx`)

A shallow embedding of the race engine of `App.jsx`: the racer records, the
per-frame update of `gameLoop`, the velocity re-randomisation of the
`scheduleNextChange` timers, `initializeRace` and `checkResultAndSignal`.

Modelling conventions.

* JavaScript numbers are modelled by `JSNum`: a finite value is an exact
  rational, next to the three special values `Infinity`, `-Infinity` and
  `NaN` with their IEEE semantics (`0/0 = NaN`, `x/0 = ±Infinity`, every
  comparison with `NaN` is false).  Rounding, overflow and the sign of zero
  are not modelled.  `Math.sqrt` is exact on squares of rationals and is
  otherwise rounded down with a relative error below `2^-53`.
* `Math.random()` is a stream `rand : Nat → JSNum` together with the index of
  the next draw, kept in the session (`randIx`).
* React state (`useState`/`useRef`) is one record, `Session`; a state setter is
  a record update.  `gameLoop` is the frame run by the callback of the latest
  render, whose closure holds the values of the session; `gameLoopFrame` is a
  frame run by the callback of any render, with the values that render captured.
* `fetch` is modelled by appending the request to the log `requests`; a flag
  tells whether the call throws synchronously (the `catch` branch).
* Where rounding decides a property (the spawn height of line 64) the line is
  evaluated in IEEE binary64, with `round64` after every operation.
-/

namespace TaserDerby

/-! ## JavaScript numbers -/

/-- JavaScript number: an exact finite value or one of the IEEE specials. -/
inductive JSNum where
  | fin (q : ℚ)
  | pinf
  | ninf
  | nan
deriving DecidableEq

namespace JSNum

/-- Unary minus. -/
def neg : JSNum → JSNum
  | fin q => fin (-q)
  | pinf => ninf
  | ninf => pinf
  | nan => nan

/-- The value `+Infinity` or `-Infinity` with the sign of `q` (`NaN` for `0`). -/
def signedInf (q : ℚ) : JSNum :=
  if q = 0 then nan else if 0 < q then pinf else ninf

/-- JavaScript `a + b`. -/
def add : JSNum → JSNum → JSNum
  | fin a, fin b => fin (a + b)
  | fin _, pinf => pinf
  | fin _, ninf => ninf
  | pinf, fin _ => pinf
  | pinf, pinf => pinf
  | ninf, fin _ => ninf
  | ninf, ninf => ninf
  | pinf, ninf => nan
  | ninf, pinf => nan
  | nan, _ => nan
  | fin _, nan => nan
  | pinf, nan => nan
  | ninf, nan => nan

/-- JavaScript `a - b`. -/
def sub (a b : JSNum) : JSNum := add a (neg b)

/-- JavaScript `a * b`. -/
def mul : JSNum → JSNum → JSNum
  | fin a, fin b => fin (a * b)
  | fin a, pinf => signedInf a
  | fin a, ninf => signedInf (-a)
  | pinf, fin b => signedInf b
  | ninf, fin b => signedInf (-b)
  | pinf, pinf => pinf
  | pinf, ninf => ninf
  | ninf, pinf => ninf
  | ninf, ninf => pinf
  | nan, _ => nan
  | fin _, nan => nan
  | pinf, nan => nan
  | ninf, nan => nan

/-- JavaScript `a / b`; a zero divisor is taken as `+0`. -/
def div : JSNum → JSNum → JSNum
  | fin a, fin b => if b = 0 then signedInf a else fin (a / b)
  | fin _, pinf => fin 0
  | fin _, ninf => fin 0
  | pinf, fin b => if 0 ≤ b then pinf else ninf
  | ninf, fin b => if 0 ≤ b then ninf else pinf
  | pinf, pinf => nan
  | pinf, ninf => nan
  | ninf, pinf => nan
  | ninf, ninf => nan
  | nan, _ => nan
  | fin _, nan => nan
  | pinf, nan => nan
  | ninf, nan => nan

instance : Neg JSNum := ⟨neg⟩
instance : Add JSNum := ⟨add⟩
instance : Sub JSNum := ⟨sub⟩
instance : Mul JSNum := ⟨mul⟩
instance : Div JSNum := ⟨div⟩

/-- JavaScript `a < b`. -/
def lt : JSNum → JSNum → Bool
  | fin a, fin b => decide (a < b)
  | fin _, pinf => true
  | ninf, fin _ => true
  | ninf, pinf => true
  | fin _, ninf => false
  | pinf, _ => false
  | ninf, ninf => false
  | nan, _ => false
  | fin _, nan => false
  | ninf, nan => false

/-- JavaScript `a > b`. -/
def gt (a b : JSNum) : Bool := lt b a

/-- `Math.max(a, b)`. -/
def max : JSNum → JSNum → JSNum
  | nan, _ => nan
  | fin _, nan => nan
  | pinf, nan => nan
  | ninf, nan => nan
  | a, b => if lt a b then b else a

/-- `Math.pow(b, e)` for a natural exponent `e`. -/
def pow (b : JSNum) : Nat → JSNum
  | 0 => fin 1
  | e + 1 => b * pow b e

/-- Integer square root by halving the bit length; `fuel` bounds the depth. -/
def isqrtFuel : Nat → Nat → Nat
  | 0, _ => 0
  | fuel + 1, n =>
    if n = 0 then 0
    else
      let r := 2 * isqrtFuel fuel (n / 4)
      if (r + 1) * (r + 1) ≤ n then r + 1 else r

/-- Integer square root: the largest `r` with `r * r ≤ n`. -/
def isqrt (n : Nat) : Nat := isqrtFuel n n

/-- Square root of a non-negative rational, rounded down to a multiple of
`1 / (den * 2^53)`; exact when `q` is the square of a rational. -/
def sqrtQ (q : ℚ) : ℚ :=
  (isqrt (q.num.toNat * q.den * 4 ^ 53) : ℚ) / ((q.den : ℚ) * 2 ^ 53)

/-- `Math.sqrt(a)`. -/
def sqrt : JSNum → JSNum
  | fin q => if q < 0 then nan else fin (sqrtQ q)
  | pinf => pinf
  | ninf => nan
  | nan => nan

/-- The number is finite (neither an infinity nor `NaN`). -/
def isFinite : JSNum → Bool
  | fin _ => true
  | _ => false

end JSNum

open JSNum

/-! ## Data model -/

def ESP32_IP_ADDRESS : String := "192.168.4.1"

def API_LOSE_ENDPOINT : String := "http://" ++ ESP32_IP_ADDRESS ++ "/lose"

def TAIL_LENGTH : Nat := 20

/-- An entry of `HORSES_CONFIG`. -/
structure HorseConfig where
  id : Nat
  name : String
  color : String
  emoji : String
deriving DecidableEq

def HORSES_CONFIG : List HorseConfig :=
  [ { id := 1, name := "Red Shift", color := "#ff4d4f", emoji := "🔴" },
    { id := 2, name := "Blue Streak", color := "#1890ff", emoji := "🔵" },
    { id := 3, name := "Lime Ghost", color := "#a0d911", emoji := "🟢" },
    { id := 4, name := "Golden Gallop", color := "#ffc53d", emoji := "🟡" },
    { id := 5, name := "Cyan Comet", color := "#597ef7", emoji := "🧊" },
    { id := 6, name := "Violet Venom", color := "#722ed1", emoji := "🟣" },
    { id := 7, name := "Orange Fury", color := "#fa8c16", emoji := "🟠" },
    { id := 8, name := "Pink Phantom", color := "#eb2f96", emoji := "🌸" } ]

/-- A point `{ x, y }` of a tail. -/
structure Point where
  x : JSNum
  y : JSNum
deriving DecidableEq

/-- A racer record: the profile fields of `HORSES_CONFIG` and the race state. -/
structure Racer where
  id : Nat
  name : String
  color : String
  emoji : String
  x : JSNum
  y : JSNum
  vx : JSNum
  vy : JSNum
  tail : List Point
  finished : Bool
  finalX : JSNum
  finalY : JSNum
deriving DecidableEq

/-- A dust particle of `generateDust`. -/
structure Dust where
  x : JSNum
  y : JSNum
  size : JSNum
  opacity : JSNum
deriving DecidableEq

/-- The values of `gameState`. -/
inductive Phase where
  | SETUP
  | RACING
  | FINISHED
deriving DecidableEq

/-- A pending `setTimeout` of `scheduleNextChange`. -/
structure Timer where
  racerId : Nat
  delay : JSNum
deriving DecidableEq

/-- A request handed to `fetch`. -/
structure Request where
  url : String
  method : String
deriving DecidableEq

/-- The drawing surface: `canvas.width` and `canvas.height`. -/
structure Canvas where
  width : JSNum
  height : JSNum
deriving DecidableEq

/-- The state of the `App` component. -/
structure Session where
  gameStateRef : Phase
  gameState : Phase
  dust : List Dust
  racers : List Racer
  finishedRankings : List Nat
  bet : Option Nat
  difficulty : Int
  statusText : String
  velocityChangeTimers : List Timer
  requests : List Request
  randIx : Nat
deriving DecidableEq

/-! ## Initialisation -/

/-- The `count` particles of `generateDust`, four draws each, from draw `n` on. -/
def generateDust (width height : JSNum) (rand : Nat → JSNum) : Nat → Nat → List Dust
  | 0, _ => []
  | count + 1, n =>
    { x := rand n * width,
      y := rand (n + 1) * height,
      size := rand (n + 2) * fin 2,
      opacity := rand (n + 3) * fin 0.2 } :: generateDust width height rand count (n + 4)

/-- The callback of `HORSES_CONFIG.map` in `initializeRace`, with draws `n .. n+3`. -/
def spawnRacer (width height : JSNum) (rand : Nat → JSNum) (n : Nat) (config : HorseConfig) :
    Racer :=
  let startX := rand n * (width * fin 0.10)
  let startY := (height * fin 0.90) + (rand (n + 1) * (height * fin 0.10))
  let vx := (rand (n + 2) * fin 0.5) + fin 0.3
  let vy := -(rand (n + 3) * fin 0.5) - fin 0.3
  { id := config.id, name := config.name, color := config.color, emoji := config.emoji,
    x := startX, y := startY, vx := vx, vy := vy,
    tail := [],
    finished := false,
    finalX := fin 0, finalY := fin 0 }

/-- The map over the roster in `initializeRace`: racer `i` takes draws `n + 4 i ..`. -/
def spawnRacers (width height : JSNum) (rand : Nat → JSNum) : Nat → List HorseConfig → List Racer
  | _, [] => []
  | n, config :: rest =>
    spawnRacer width height rand n config :: spawnRacers width height rand (n + 4) rest

/-- The function `initializeRace(width, height)`: the new racers and the session after
its state updates. -/
def initializeRace (width height : JSNum) (rand : Nat → JSNum) (s : Session) :
    List Racer × Session :=
  let dust := generateDust width height rand 80 s.randIx
  let n := s.randIx + 4 * 80
  (spawnRacers width height rand n HORSES_CONFIG,
   { s with
     dust := dust,
     finishedRankings := [],
     statusText := "",
     velocityChangeTimers := [],
     randIx := n + 4 * HORSES_CONFIG.length })

/-- The `onClick` handler of a fighter button. -/
def onClickFighter (h : HorseConfig) (innerWidth innerHeight : JSNum) (rand : Nat → JSNum)
    (s : Session) : Session :=
  let s1 := { s with bet := some h.id }
  let init := initializeRace innerWidth innerHeight rand s1
  { init.2 with racers := init.1, gameStateRef := Phase.RACING, gameState := Phase.RACING }

/-! ## The frame tick -/

/-- The constant `GOAL_RADIUS` of `gameLoop`. -/
def GOAL_RADIUS (W H : JSNum) : JSNum := JSNum.max W H * fin 0.15

/-- The constant `distToCorner` of the goal check at position `(x, y)`. -/
def distToCorner (W x y : JSNum) : JSNum :=
  JSNum.sqrt (JSNum.pow (W - x) 2 + JSNum.pow (fin 0 - y) 2)

/-- Position and velocity of a racer. -/
structure Motion where
  x : JSNum
  y : JSNum
  vx : JSNum
  vy : JSNum
deriving DecidableEq

/-- The movement physics and the wall bounce of one unfinished racer, with the two
jitter draws `u1`, `u2`. -/
def moveRacer (W H : JSNum) (r : Racer) (u1 u2 : JSNum) : Motion :=
  let dx := W - r.x
  let dy := fin 0 - r.y
  let dist := JSNum.sqrt (dx * dx + dy * dy)
  let vx := r.vx + (dx / dist) * fin 0.02
  let vy := r.vy + (dy / dist) * fin 0.02
  let vx := vx + (u1 - fin 0.5) * fin 0.3
  let vy := vy + (u2 - fin 0.5) * fin 0.3
  let vx := vx * fin 0.998
  let vy := vy * fin 0.998
  let x := r.x + vx
  let y := r.y + vy
  -- if (x < 0) { x = 0; vx *= -0.8; }
  let vx1 := if JSNum.lt x (fin 0) then vx * fin (-0.8) else vx
  let x1 := if JSNum.lt x (fin 0) then fin 0 else x
  -- if (x > W) { x = W; vx *= -0.8; }
  let vx2 := if JSNum.gt x1 W then vx1 * fin (-0.8) else vx1
  let x2 := if JSNum.gt x1 W then W else x1
  -- if (y < 0) { y = 0; vy *= -0.8; }
  let vy1 := if JSNum.lt y (fin 0) then vy * fin (-0.8) else vy
  let y1 := if JSNum.lt y (fin 0) then fin 0 else y
  -- if (y > H) { y = H; vy *= -0.8; }
  let vy2 := if JSNum.gt y1 H then vy1 * fin (-0.8) else vy1
  let y2 := if JSNum.gt y1 H then H else y1
  { x := x2, y := y2, vx := vx2, vy := vy2 }

/-- The tail after `tail = [...tail, { x, y }]; if (tail.length > TAIL_LENGTH) tail.shift()`. -/
def pushTail (tail : List Point) (p : Point) : List Point :=
  let t := tail ++ [p]
  if t.length > TAIL_LENGTH then t.drop 1 else t

/-- The callback of `prevRacers.map` in `gameLoop`, with the two draws it makes for an
unfinished racer. -/
def gameLoopRacer (W H : JSNum) (r : Racer) (u1 u2 : JSNum) : Racer :=
  if r.finished then r
  else
    let m := moveRacer W H r u1 u2
    let tail := pushTail r.tail { x := m.x, y := m.y }
    if JSNum.lt (distToCorner W m.x m.y) (GOAL_RADIUS W H) then
      { r with x := m.x, y := m.y, vx := m.vx, vy := m.vy, tail := tail,
               finished := true, finalX := m.x, finalY := m.y }
    else
      { r with x := m.x, y := m.y, vx := m.vx, vy := m.vy, tail := tail }

/-- The map `prevRacers.map(...)` of `gameLoop`: an unfinished racer takes the next two
draws, a finished one none.  Returns the new racers and the index of the next draw. -/
def gameLoopMap (W H : JSNum) (rand : Nat → JSNum) : Nat → List Racer → List Racer × Nat
  | n, [] => ([], n)
  | n, r :: rest =>
    if r.finished then
      let out := gameLoopMap W H rand n rest
      (gameLoopRacer W H r (rand n) (rand (n + 1)) :: out.1, out.2)
    else
      let out := gameLoopMap W H rand (n + 2) rest
      (gameLoopRacer W H r (rand n) (rand (n + 1)) :: out.1, out.2)

/-- The list `currentFinishers` of `gameLoop` after the `forEach` over `newRacers`,
started from the rankings `finishedRankings`. -/
def currentFinishers (finishedRankings : List Nat) (newRacers : List Racer) : List Nat :=
  newRacers.foldl
    (fun acc r => if r.finished && !acc.contains r.id then acc ++ [r.id] else acc)
    finishedRankings

/-- The function `gameLoop`: one frame tick, run by the callback of the latest render,
whose closure holds the `gameState`, `finishedRankings` and `difficulty` of the session. -/
def gameLoop (canvas : Option Canvas) (rand : Nat → JSNum) (s : Session) : Session :=
  match canvas with
  | none => s
  | some c =>
    if s.gameState ≠ Phase.RACING then s
    else
      let W := c.width
      let H := c.height
      let out := gameLoopMap W H rand s.randIx s.racers
      let newRacers := out.1
      let finishers := currentFinishers s.finishedRankings newRacers
      let s1 :=
        if finishers.length ≠ s.finishedRankings.length then
          { s with finishedRankings := finishers }
        else s
      let s2 :=
        if (finishers.length : Int) ≥ s.difficulty then
          { s1 with gameStateRef := Phase.FINISHED, gameState := Phase.FINISHED }
        else s1
      { s2 with racers := newRacers, randIx := out.2 }

/-! ## Velocity perturbation timers -/

/-- The updater passed to `setRacers` by a firing timer of racer `racerId`, with the
draws `u1`, `u2`; the flag tells whether the draws were made. -/
def velocityChange (racerId : Nat) (prevRacers : List Racer) (u1 u2 : JSNum) :
    List Racer × Bool :=
  match prevRacers.find? (fun r => r.id == racerId) with
  | none => (prevRacers, false)
  | some currentRacer =>
    if currentRacer.finished then (prevRacers, false)
    else
      let newVx := (u1 * fin 0.5) + fin 0.3
      let newVy := -(u2 * fin 0.5) - fin 0.3
      (prevRacers.map (fun r => if r.id == racerId then { r with vx := newVx, vy := newVy } else r),
       true)

/-- The function `scheduleNextChange(racerId)`: draws the delay and records the timer. -/
def scheduleNextChange (racerId : Nat) (rand : Nat → JSNum) (s : Session) : Session :=
  let delay := rand s.randIx * fin 400 + fin 200
  { s with
    velocityChangeTimers := s.velocityChangeTimers ++ [{ racerId := racerId, delay := delay }],
    randIx := s.randIx + 1 }

/-- The `setTimeout` callback of `scheduleNextChange(racerId)`: a timer firing. -/
def timerFire (racerId : Nat) (rand : Nat → JSNum) (s : Session) : Session :=
  let out := velocityChange racerId s.racers (rand s.randIx) (rand (s.randIx + 1))
  let s1 := { s with racers := out.1, randIx := if out.2 then s.randIx + 2 else s.randIx }
  if s1.gameStateRef = Phase.RACING then scheduleNextChange racerId rand s1 else s1

/-! ## Result -/

/-- The test `rankings.includes(bet)`, where `bet` may still be `null`. -/
def includesBet (rankings : List Nat) : Option Nat → Bool
  | none => false
  | some b => rankings.contains b

/-- The function `checkResultAndSignal(rankings)`.  The flag `fetchThrows` tells whether
the call `fetch(...)` throws synchronously: then no request is issued and the `catch`
branch sets the status text. -/
def checkResultAndSignal (fetchThrows : Bool) (rankings : List Nat) (s : Session) : Session :=
  let madeTheCut := includesBet rankings s.bet
  if madeTheCut then
    match s.bet with
    | none => s
    | some b =>
      let rank := rankings.indexOf b + 1
      { s with statusText := "SAFE: Finished #" ++ toString rank ++ ". No signal sent." }
  else
    let s1 := { s with statusText := "DEFEAT: Did not make the cut. Transmitting penalty... ⚡" }
    if fetchThrows then
      { s1 with statusText := "CONNECTION FAILED to ESP32" }
    else
      { s1 with requests := s1.requests ++ [{ url := API_LOSE_ENDPOINT, method := "POST" }] }

/-! ## Reachable sessions -/

/-- Sessions reachable from a freshly started race by frame ticks and timer firings,
with any viewport and any random draws at each step. -/
inductive Reachable : Session → Prop
  | start (s0 : Session) (h : HorseConfig) (hmem : h ∈ HORSES_CONFIG)
      (innerWidth innerHeight : JSNum) (rand : Nat → JSNum) :
      Reachable (onClickFighter h innerWidth innerHeight rand s0)
  | tick (s : Session) (canvas : Option Canvas) (rand : Nat → JSNum) :
      Reachable s → Reachable (gameLoop canvas rand s)
  | fire (s : Session) (racerId : Nat) (rand : Nat → JSNum) :
      Reachable s → Reachable (timerFire racerId rand s)

/-! ## Worked inputs -/

/-- A racer at `(900, 50)`, for worked inputs. -/
def demoRacer (id : Nat) (finished : Bool) : Racer :=
  { id := id, name := "", color := "", emoji := "",
    x := fin 900, y := fin 50, vx := fin 0.5, vy := fin (-0.5),
    tail := [], finished := finished, finalX := fin 900, finalY := fin 50 }

/-- A race in progress with one finished and one running racer. -/
def demoSession : Session :=
  { gameStateRef := Phase.RACING, gameState := Phase.RACING, dust := [],
    racers := [demoRacer 1 true, demoRacer 2 false],
    finishedRankings := [1], bet := some 2, difficulty := 4, statusText := "",
    velocityChangeTimers := [], requests := [], randIx := 0 }

/-- A finished race with rankings `[5, 1, 3, 7]` and the given bet. -/
def betSession (bet : Nat) : Session :=
  { gameStateRef := Phase.FINISHED, gameState := Phase.FINISHED, dust := [], racers := [],
    finishedRankings := [5, 1, 3, 7], bet := some bet, difficulty := 4, statusText := "",
    velocityChangeTimers := [], requests := [], randIx := 0 }

/-- A session in the setup phase with the default difficulty 4. -/
def demoSetup : Session :=
  { gameStateRef := Phase.SETUP, gameState := Phase.SETUP, dust := [], racers := [],
    finishedRankings := [], bet := none, difficulty := 4, statusText := "",
    velocityChangeTimers := [], requests := [], randIx := 0 }

/-- A stream of draws in `[0, 1)`: 0.99 during initialisation, then 0.99 and 0 in turn. -/
def demoRand : Nat → JSNum :=
  fun n => if n < 352 then fin 0.99 else if n % 2 = 0 then fin 0.99 else fin 0

/-- The roster entry of racer 8. -/
def pinkPhantom : HorseConfig :=
  { id := 8, name := "Pink Phantom", color := "#eb2f96", emoji := "🌸" }

/-- A race started on a 1 × 1 viewport with a bet on racer 8. -/
def demoStarted : Session := onClickFighter pinkPhantom (fin 1) (fin 1) demoRand demoSetup

/-- The race `demoStarted` after its first frame tick. -/
def demoRace : Session := gameLoop (some { width := fin 1, height := fin 1 }) demoRand demoStarted

/-- A running racer whose tail is full: twenty entries. -/
def fullTailRacer : Racer :=
  { demoRacer 2 false with tail := List.replicate 20 { x := fin 899, y := fin 51 } }

/-- Every draw of the stream is a finite number in `[0, 1)`, as `Math.random()` returns. -/
def unitDraws (rand : Nat → JSNum) : Prop :=
  ∀ n, ∃ u : ℚ, rand n = fin u ∧ 0 ≤ u ∧ u < 1

/-- The constant stream of draws 1/2. -/
def halfRand : Nat → JSNum := fun _ => fin 0.5

/-- A running racer exactly at the goal corner `(1000, 0)` of a 1000 × 800 viewport. -/
def cornerRacer : Racer :=
  { id := 1, name := "Red Shift", color := "#ff4d4f", emoji := "🔴",
    x := fin 1000, y := fin 0, vx := fin 0.5, vy := fin (-0.5),
    tail := [], finished := false, finalX := fin 0, finalY := fin 0 }

/-- A race started on a 0 × 0 viewport: every racer spawns at the goal corner `(0, 0)`. -/
def zeroStarted : Session := onClickFighter pinkPhantom (fin 0) (fin 0) halfRand demoSetup

/-- The session `demoSession` after the race has ended: racer 2 is still running. -/
def endedSession : Session :=
  { demoSession with gameStateRef := Phase.FINISHED, gameState := Phase.FINISHED }

/-- A setup session whose difficulty is 9, above the range of the slider. -/
def highSetup : Session := { demoSetup with difficulty := 9 }

/-- A setup session whose difficulty is 0, below the range of the slider. -/
def lowSetup : Session := { demoSetup with difficulty := 0 }

/-- A roster entry with an id outside `HORSES_CONFIG`. -/
def strangerConfig : HorseConfig := { id := 99, name := "", color := "", emoji := "" }

/-! ## The tick in two steps, and races on a fixed viewport -/

/-- Lines 116-125 of `gameLoop`: drift towards the goal corner, jitter, drag and
integration of the position, before the wall bounce. -/
def driftRacer (W : JSNum) (r : Racer) (u1 u2 : JSNum) : Motion :=
  let dx := W - r.x
  let dy := fin 0 - r.y
  let dist := JSNum.sqrt (dx * dx + dy * dy)
  let vx := r.vx + (dx / dist) * fin 0.02
  let vy := r.vy + (dy / dist) * fin 0.02
  let vx := vx + (u1 - fin 0.5) * fin 0.3
  let vy := vy + (u2 - fin 0.5) * fin 0.3
  let vx := vx * fin 0.998
  let vy := vy * fin 0.998
  { x := r.x + vx, y := r.y + vy, vx := vx, vy := vy }

/-- Lines 128-131 of `gameLoop`: the wall bounce, four tests in sequence. -/
def wallBounce (W H : JSNum) (m : Motion) : Motion :=
  let vx1 := if JSNum.lt m.x (fin 0) then m.vx * fin (-0.8) else m.vx
  let x1 := if JSNum.lt m.x (fin 0) then fin 0 else m.x
  let vx2 := if JSNum.gt x1 W then vx1 * fin (-0.8) else vx1
  let x2 := if JSNum.gt x1 W then W else x1
  let vy1 := if JSNum.lt m.y (fin 0) then m.vy * fin (-0.8) else m.vy
  let y1 := if JSNum.lt m.y (fin 0) then fin 0 else m.y
  let vy2 := if JSNum.gt y1 H then vy1 * fin (-0.8) else vy1
  let y2 := if JSNum.gt y1 H then H else y1
  { x := x2, y := y2, vx := vx2, vy := vy2 }

/-- The number is finite and lies in the closed interval `[lo, hi]`. -/
def JSNum.within (lo hi : ℚ) : JSNum → Bool
  | fin q => decide (lo ≤ q ∧ q ≤ hi)
  | _ => false

/-- Sessions reachable from a race started on the viewport `w × h`, by frame ticks on
that same viewport and by timer firings, all with draws in `[0, 1)`. -/
inductive ReachableAt (w h : ℚ) : Session → Prop
  | start (s0 : Session) (hc : HorseConfig) (rand : Nat → JSNum) (hr : unitDraws rand) :
      ReachableAt w h (onClickFighter hc (fin w) (fin h) rand s0)
  | tick (s : Session) (rand : Nat → JSNum) (hr : unitDraws rand) :
      ReachableAt w h s →
      ReachableAt w h (gameLoop (some { width := fin w, height := fin h }) rand s)
  | fire (s : Session) (racerId : Nat) (rand : Nat → JSNum) (hr : unitDraws rand) :
      ReachableAt w h s → ReachableAt w h (timerFire racerId rand s)

/-- The state of a racer that the drift step can divide for, on the viewport `w × h`:
position and velocity are finite, and the racer is either at a spawn position or at a
distance of at least `0.15 * max w h` from the goal corner. -/
def SafeRacer (w h : ℚ) (r : Racer) : Prop :=
  ∃ x y vx vy : ℚ, r.x = fin x ∧ r.y = fin y ∧ r.vx = fin vx ∧ r.vy = fin vy ∧
    ((∃ a b : ℚ, 0 ≤ a ∧ a < 1 ∧ 0 ≤ b ∧ b < 1 ∧
        x = a * (w * 0.10) ∧ y = h * 0.90 + b * (h * 0.10)) ∨
      0.15 * max w h ≤ sqrtQ ((w - x) * (w - x) + (0 - y) * (0 - y)))

/-! ## Worked inputs on a 1000 × 800 viewport -/

/-- A race started on a 1000 × 800 viewport with all draws 1/2. -/
def fieldStarted : Session := onClickFighter pinkPhantom (fin 1000) (fin 800) halfRand demoSetup

/-- Racer 1 of the race `fieldStarted` after the first tick with all draws 1/2. -/
def fieldRacer : Racer :=
  gameLoopRacer (fin 1000) (fin 800)
    (spawnRacer (fin 1000) (fin 800) halfRand 320
      { id := 1, name := "Red Shift", color := "#ff4d4f", emoji := "🔴" })
    (fin 0.5) (fin 0.5)

/-! ## Frames of an earlier render -/

/-- The values that a `gameLoop` callback captured in the render that created it
(the dependencies of its `useCallback`). -/
structure Closure where
  gameState : Phase
  finishedRankings : List Nat
  difficulty : Int
deriving DecidableEq

/-- The closure of the callback created by a render of the session `s`. -/
def Session.closure (s : Session) : Closure :=
  { gameState := s.gameState, finishedRankings := s.finishedRankings,
    difficulty := s.difficulty }

/-- The function `gameLoop` as the frame of a callback with the captured values `cl`:
the phase test, `currentFinishers` and the race-end test read `cl`, and the updater of
`setRacers` reads the racers of the session.  Line 167 requests the next frame for the
same callback, so `cl` can be older than the session. -/
def gameLoopFrame (cl : Closure) (canvas : Option Canvas) (rand : Nat → JSNum) (s : Session) :
    Session :=
  match canvas with
  | none => s
  | some c =>
    if cl.gameState ≠ Phase.RACING then s
    else
      let W := c.width
      let H := c.height
      let out := gameLoopMap W H rand s.randIx s.racers
      let newRacers := out.1
      let finishers := currentFinishers cl.finishedRankings newRacers
      let s1 :=
        if finishers.length ≠ cl.finishedRankings.length then
          { s with finishedRankings := finishers }
        else s
      let s2 :=
        if (finishers.length : Int) ≥ cl.difficulty then
          { s1 with gameStateRef := Phase.FINISHED, gameState := Phase.FINISHED }
        else s1
      { s2 with racers := newRacers, randIx := out.2 }

/-- A running racer at `(x, y)` with velocity `(0.5, -0.5)`. -/
def midRacer (id : Nat) (x y : ℚ) : Racer :=
  { id := id, name := "", color := "", emoji := "",
    x := fin x, y := fin y, vx := fin 0.5, vy := fin (-0.5),
    tail := [], finished := false, finalX := fin 0, finalY := fin 0 }

/-- A race in progress on a 1000 × 800 viewport: racer 5 is one tick and racer 2 two
ticks away from the goal region, the others are far from it. -/
def midSession : Session :=
  { gameStateRef := Phase.RACING, gameState := Phase.RACING, dust := [],
    racers := [midRacer 1 100 700, midRacer 2 893.5 107.5, midRacer 3 100 700,
      midRacer 4 100 700, midRacer 5 950 20, midRacer 6 100 700, midRacer 7 100 700,
      midRacer 8 100 700],
    finishedRankings := [], bet := some 5, difficulty := 4, statusText := "",
    velocityChangeTimers := [], requests := [], randIx := 0 }

/-- The session `midSession` after one frame of the callback of its render. -/
def midFrame1 : Session :=
  gameLoopFrame midSession.closure (some { width := fin 1000, height := fin 800 }) halfRand
    midSession

/-- The session `midFrame1` after a second frame of the same callback, the one that
captured the rankings of `midSession`. -/
def midFrame2 : Session :=
  gameLoopFrame midSession.closure (some { width := fin 1000, height := fin 800 }) halfRand
    midFrame1

/-! ## IEEE binary64 rounding -/

/-- The power `2 ^ e` for an integer exponent. -/
def pow2 (e : Int) : ℚ := if 0 ≤ e then (2 ^ e.toNat : ℚ) else 1 / (2 ^ (-e).toNat : ℚ)

/-- Binary logarithm by halving; `fuel` bounds the depth. -/
def log2Fuel : Nat → Nat → Nat
  | 0, _ => 0
  | fuel + 1, n => if n < 2 then 0 else log2Fuel fuel (n / 2) + 1

/-- Binary logarithm, rounded down: the position of the leading bit. -/
def ilog2 (n : Nat) : Nat := log2Fuel n n

/-- The integer `e` with `2 ^ e ≤ a < 2 ^ (e + 1)`, for `a > 0`. -/
def floorLog2 (a : ℚ) : Int :=
  let e0 := (ilog2 a.num.natAbs : Int) - (ilog2 a.den : Int)
  if pow2 e0 ≤ a then e0 else e0 - 1

/-- Rounding to the nearest binary64 number, ties to even (53 significant bits; overflow
and subnormal numbers are not modelled). -/
def round64 (q : ℚ) : ℚ :=
  if q = 0 then 0
  else
    let a := if q < 0 then -q else q
    let ulp := pow2 (floorLog2 a - 52)
    let t := a / ulp
    let n := t.floor
    let rem := t - n
    let m :=
      if rem < 1 / 2 then n else if 1 / 2 < rem then n + 1 else if n % 2 = 0 then n else n + 1
    (if q < 0 then -1 else 1) * m * ulp

/-- Line 64 of `initializeRace` in binary64, for the height `height` and the draw `u`:
`(height * 0.90) + (Math.random() * (height * 0.10))`. -/
def startY64 (height u : ℚ) : ℚ :=
  round64 (round64 (height * round64 0.90) + round64 (u * round64 (height * round64 0.10)))

/-! ## The freeze of finished racers -/

theorem gameLoopRacer_of_finished (W H : JSNum) (r : Racer) (u1 u2 : JSNum)
    (h : r.finished = true) : gameLoopRacer W H r u1 u2 = r := by
  simp [gameLoopRacer, h]

/-- The map of `gameLoop` applies the per-racer callback pointwise, with some draws. -/
theorem gameLoopMap_forall₂ (W H : JSNum) (rand : Nat → JSNum) (rs : List Racer) :
    ∀ n, List.Forall₂ (fun r r' => ∃ u1 u2, r' = gameLoopRacer W H r u1 u2) rs
      (gameLoopMap W H rand n rs).1 := by
  induction rs with
  | nil => intro n; simp [gameLoopMap]
  | cons r rest ih =>
    intro n
    by_cases h : r.finished = true
    · simp only [gameLoopMap, h, if_true]
      exact List.Forall₂.cons ⟨_, _, rfl⟩ (ih n)
    · simp only [gameLoopMap, h]
      exact List.Forall₂.cons ⟨_, _, rfl⟩ (ih (n + 2))

theorem gameLoopMap_getElem?_of_finished (W H : JSNum) (rand : Nat → JSNum) (rs : List Racer) :
    ∀ (n i : Nat) (r : Racer), rs[i]? = some r → r.finished = true →
      (gameLoopMap W H rand n rs).1[i]? = some r := by
  induction rs with
  | nil => intro n i r h; simp at h
  | cons a rest ih =>
    intro n i r hget hfin
    cases i with
    | zero =>
      simp at hget
      subst hget
      simp [gameLoopMap, hfin, gameLoopRacer]
    | succ j =>
      simp at hget
      by_cases h : a.finished = true
      · simp only [gameLoopMap, h, if_true]
        simpa using ih n j r hget hfin
      · simp only [gameLoopMap, h]
        simpa using ih (n + 2) j r hget hfin

theorem gameLoop_racers (c : Canvas) (rand : Nat → JSNum) (s : Session)
    (h : s.gameState = Phase.RACING) :
    (gameLoop (some c) rand s).racers = (gameLoopMap c.width c.height rand s.randIx s.racers).1 := by
  simp only [gameLoop, h, ne_eq, not_true_eq_false, if_false]

theorem gameLoop_of_not_racing (canvas : Option Canvas) (rand : Nat → JSNum) (s : Session)
    (h : s.gameState ≠ Phase.RACING) : gameLoop canvas rand s = s := by
  cases canvas with
  | none => rfl
  | some c => simp [gameLoop, h]

theorem timerFire_racers (racerId : Nat) (rand : Nat → JSNum) (s : Session) :
    (timerFire racerId rand s).racers =
      (velocityChange racerId s.racers (rand s.randIx) (rand (s.randIx + 1))).1 := by
  simp only [timerFire, scheduleNextChange]
  split_ifs <;> rfl

theorem velocityChange_getElem?_of_finished (racerId : Nat) (rs : List Racer) (u1 u2 : JSNum)
    (i : Nat) (r : Racer) (hget : rs[i]? = some r) (hfin : r.finished = true)
    (hids : (rs.map Racer.id).Nodup) :
    (velocityChange racerId rs u1 u2).1[i]? = some r := by
  unfold velocityChange
  cases hfind : rs.find? (fun r => r.id == racerId) with
  | none => simpa using hget
  | some c =>
    by_cases hc : c.finished = true
    · simpa [hc] using hget
    · have hcmem : c ∈ rs := List.mem_of_find?_eq_some hfind
      have hcid : c.id = racerId := by
        have := List.find?_some hfind
        simpa using this
      have hrmem : r ∈ rs := List.mem_iff_getElem?.2 ⟨i, hget⟩
      have hne : r.id ≠ racerId := by
        intro hr
        have : r = c := List.inj_on_of_nodup_map hids hrmem hcmem (hr.trans hcid.symm)
        exact hc (this ▸ hfin)
      simp [hc, List.getElem?_map, hget, hne]


/-- C1 (freeze invariant): a finished racer is returned unchanged by the per-racer
callback of the tick and keeps its place and its whole record (position, velocity, tail,
final position) through a frame tick; in a collection with pairwise distinct ids it
is left unchanged by a timer firing for any racer id, and a firing aimed at its own id
returns the whole collection unchanged. -/
theorem freeze_invariant (canvas : Option Canvas) (rand : Nat → JSNum) (s : Session)
    (i : Nat) (r : Racer) (W H u1 u2 : JSNum) (racerId : Nat)
    (hget : s.racers[i]? = some r) (hfin : r.finished = true) :
    gameLoopRacer W H r u1 u2 = r ∧
    (gameLoop canvas rand s).racers[i]? = some r ∧
    ((s.racers.map Racer.id).Nodup →
      (timerFire racerId rand s).racers[i]? = some r ∧
      (timerFire r.id rand s).racers = s.racers) := by
  refine ⟨gameLoopRacer_of_finished W H r u1 u2 hfin, ?_, ?_⟩
  · cases canvas with
    | none => exact hget
    | some c =>
      by_cases h : s.gameState = Phase.RACING
      · rw [gameLoop_racers c rand s h]
        exact gameLoopMap_getElem?_of_finished _ _ _ _ _ _ _ hget hfin
      · rw [gameLoop_of_not_racing _ _ _ h]; exact hget
  · intro hids
    refine ⟨?_, ?_⟩
    · rw [timerFire_racers]
      exact velocityChange_getElem?_of_finished _ _ _ _ _ _ hget hfin hids
    · rw [timerFire_racers]
      unfold velocityChange
      cases hfind : s.racers.find? (fun x => x.id == r.id) with
      | none => rfl
      | some c =>
        have hcmem : c ∈ s.racers := List.mem_of_find?_eq_some hfind
        have hcid : c.id = r.id := by simpa using List.find?_some hfind
        have hrmem : r ∈ s.racers := List.mem_iff_getElem?.2 ⟨i, hget⟩
        have : c = r := List.inj_on_of_nodup_map hids hcmem hrmem hcid
        simp [this, hfin]

/-- The freeze invariant at the finished racer 1 of `demoSession`. -/
theorem freeze_invariant_witness :
    gameLoopRacer (fin 1000) (fin 800) (demoRacer 1 true) (fin 0.25) (fin 0.75) = demoRacer 1 true ∧
    (gameLoop (some ⟨fin 1000, fin 800⟩) (fun _ => fin 0.25) demoSession).racers[0]?
      = some (demoRacer 1 true) ∧
    ((demoSession.racers.map Racer.id).Nodup →
      (timerFire 2 (fun _ => fin 0.25) demoSession).racers[0]? = some (demoRacer 1 true) ∧
      (timerFire (demoRacer 1 true).id (fun _ => fin 0.25) demoSession).racers
        = demoSession.racers) :=
  freeze_invariant (some ⟨fin 1000, fin 800⟩) (fun _ => fin 0.25) demoSession 0 (demoRacer 1 true)
    (fin 1000) (fin 800) (fin 0.25) (fin 0.75) 2 rfl rfl

/-! ## The result of a race -/

theorem safe_ne_defeat (rank : Nat) :
    "SAFE: Finished #" ++ toString rank ++ ". No signal sent."
      ≠ "DEFEAT: Did not make the cut. Transmitting penalty... ⚡" := by
  intro h
  have h2 := congrArg (fun t => t.data.head?) h
  simp [String.data_append] at h2

theorem safe_ne_failed (rank : Nat) :
    "SAFE: Finished #" ++ toString rank ++ ". No signal sent." ≠ "CONNECTION FAILED to ESP32" := by
  intro h
  have h2 := congrArg (fun t => t.data.head?) h
  simp [String.data_append] at h2

theorem includesBet_some (rankings : List Nat) (b : Nat) :
    includesBet rankings (some b) = decide (b ∈ rankings) := by
  simp [includesBet]

/-- Position `indexOf` is the first occurrence of a member. -/
theorem indexOf_first (b : Nat) (l : List Nat) (h : b ∈ l) :
    l[l.indexOf b]? = some b ∧ ∀ j, j < l.indexOf b → l[j]? ≠ some b := by
  induction l with
  | nil => simp at h
  | cons a rest ih =>
    by_cases hab : a = b
    · subst hab
      simp [List.indexOf_cons_self]
    · have hmem : b ∈ rest := by
        rcases List.mem_cons.1 h with h | h
        · exact absurd h.symm hab
        · exact h
      have hne : b ≠ a := fun h => hab h.symm
      rw [List.indexOf_cons_ne _ hab]
      obtain ⟨h1, h2⟩ := ih hmem
      refine ⟨by simpa using h1, ?_⟩
      intro j hj
      cases j with
      | zero => simp [hab]
      | succ k =>
        simp only [List.getElem?_cons_succ]
        exact h2 k (by omega)

theorem checkResultAndSignal_of_mem (fetchThrows : Bool) (rankings : List Nat) (b : Nat)
    (s : Session) (hbet : s.bet = some b) (hb : b ∈ rankings) :
    (checkResultAndSignal fetchThrows rankings s).statusText
      = "SAFE: Finished #" ++ toString (rankings.indexOf b + 1) ++ ". No signal sent." ∧
    (checkResultAndSignal fetchThrows rankings s).requests = s.requests := by
  simp [checkResultAndSignal, hbet, includesBet, hb]

theorem checkResultAndSignal_of_not_mem (rankings : List Nat) (b : Nat) (s : Session)
    (hbet : s.bet = some b) (hb : b ∉ rankings) :
    (checkResultAndSignal false rankings s).statusText
      = "DEFEAT: Did not make the cut. Transmitting penalty... ⚡" ∧
    (checkResultAndSignal false rankings s).requests
      = s.requests ++ [{ url := API_LOSE_ENDPOINT, method := "POST" }] := by
  simp [checkResultAndSignal, hbet, includesBet, hb]

theorem checkResultAndSignal_of_throw (rankings : List Nat) (b : Nat) (s : Session)
    (hbet : s.bet = some b) (hb : b ∉ rankings) :
    (checkResultAndSignal true rankings s).statusText = "CONNECTION FAILED to ESP32" ∧
    (checkResultAndSignal true rankings s).requests = s.requests := by
  simp [checkResultAndSignal, hbet, includesBet, hb]

/-- C2, as the code has it: `checkResultAndSignal` sets the status text
`SAFE: Finished #rank. No signal sent.` iff the bet is in the rankings; then `rank` is
`indexOf + 1`, the 1-based position of the first occurrence of the bet, printed in
decimal, and no request is issued.  Otherwise, when the call of `fetch` returns, it sets
the DEFEAT text and issues exactly one POST to the penalty endpoint, and when the call
of `fetch` throws, it sets the text `CONNECTION FAILED to ESP32` and issues no request. -/
theorem outcome_correctness (fetchThrows : Bool) (rankings : List Nat) (b : Nat) (s : Session)
    (hbet : s.bet = some b) :
    ((∃ rank : Nat, (checkResultAndSignal fetchThrows rankings s).statusText
        = "SAFE: Finished #" ++ toString rank ++ ". No signal sent.") ↔ b ∈ rankings) ∧
    (b ∈ rankings →
      (checkResultAndSignal fetchThrows rankings s).statusText
        = "SAFE: Finished #" ++ toString (rankings.indexOf b + 1) ++ ". No signal sent." ∧
      rankings[rankings.indexOf b]? = some b ∧
      (∀ j, j < rankings.indexOf b → rankings[j]? ≠ some b) ∧
      (checkResultAndSignal fetchThrows rankings s).requests = s.requests) ∧
    (b ∉ rankings → fetchThrows = false →
      (checkResultAndSignal fetchThrows rankings s).statusText
        = "DEFEAT: Did not make the cut. Transmitting penalty... ⚡" ∧
      (checkResultAndSignal fetchThrows rankings s).requests
        = s.requests ++ [{ url := "http://192.168.4.1/lose", method := "POST" }]) ∧
    (b ∉ rankings → fetchThrows = true →
      (checkResultAndSignal fetchThrows rankings s).statusText = "CONNECTION FAILED to ESP32" ∧
      (checkResultAndSignal fetchThrows rankings s).requests = s.requests) := by
  refine ⟨⟨?_, fun hb => ⟨rankings.indexOf b + 1,
    (checkResultAndSignal_of_mem fetchThrows rankings b s hbet hb).1⟩⟩, ?_, ?_, ?_⟩
  · rintro ⟨rank, hrank⟩
    by_contra hb
    cases fetchThrows with
    | false =>
      rw [(checkResultAndSignal_of_not_mem rankings b s hbet hb).1] at hrank
      exact safe_ne_defeat rank hrank.symm
    | true =>
      rw [(checkResultAndSignal_of_throw rankings b s hbet hb).1] at hrank
      exact safe_ne_failed rank hrank.symm
  · intro hb
    exact ⟨(checkResultAndSignal_of_mem fetchThrows rankings b s hbet hb).1,
      (indexOf_first b rankings hb).1, (indexOf_first b rankings hb).2,
      (checkResultAndSignal_of_mem fetchThrows rankings b s hbet hb).2⟩
  · intro hb hf
    subst hf
    exact checkResultAndSignal_of_not_mem rankings b s hbet hb
  · intro hb hf
    subst hf
    exact checkResultAndSignal_of_throw rankings b s hbet hb

/-- The outcome against the rankings `[5, 1, 3, 7]`: the bets 5, 3 and 7 are reported at
the ranks 1, 3 and 4 with no request, and the bet 2 gets the DEFEAT text and one POST when
the call of `fetch` returns. -/
theorem outcome_correctness_witness :
    ((checkResultAndSignal false [5, 1, 3, 7] (betSession 5)).statusText
        = "SAFE: Finished #1. No signal sent." ∧
      (checkResultAndSignal false [5, 1, 3, 7] (betSession 5)).requests = []) ∧
    ((checkResultAndSignal false [5, 1, 3, 7] (betSession 3)).statusText
        = "SAFE: Finished #3. No signal sent." ∧
      (checkResultAndSignal false [5, 1, 3, 7] (betSession 3)).requests = []) ∧
    ((checkResultAndSignal false [5, 1, 3, 7] (betSession 7)).statusText
        = "SAFE: Finished #4. No signal sent." ∧
      (checkResultAndSignal false [5, 1, 3, 7] (betSession 7)).requests = []) ∧
    ((checkResultAndSignal false [5, 1, 3, 7] (betSession 2)).statusText
        = "DEFEAT: Did not make the cut. Transmitting penalty... ⚡" ∧
      (checkResultAndSignal false [5, 1, 3, 7] (betSession 2)).requests
        = [{ url := "http://192.168.4.1/lose", method := "POST" }]) := by
  have h5 := (outcome_correctness false [5, 1, 3, 7] 5 (betSession 5) rfl).2.1 (by decide)
  have h3 := (outcome_correctness false [5, 1, 3, 7] 3 (betSession 3) rfl).2.1 (by decide)
  have h7 := (outcome_correctness false [5, 1, 3, 7] 7 (betSession 7) rfl).2.1 (by decide)
  have h2 := (outcome_correctness false [5, 1, 3, 7] 2 (betSession 2) rfl).2.2.1 (by decide) rfl
  exact ⟨⟨h5.1, h5.2.2.2⟩, ⟨h3.1, h3.2.2.2⟩, ⟨h7.1, h7.2.2.2⟩, h2⟩

/-- C2 fails as stated: when the call of `fetch` throws synchronously, the bet 2 against the
rankings `[5, 1, 3, 7]` ends with the status text `CONNECTION FAILED to ESP32`, not the
DEFEAT text, and no request is issued. -/
theorem outcome_correctness_counterexample :
    (betSession 2).bet = some 2 ∧
    (2 : Nat) ∉ [5, 1, 3, 7] ∧
    (checkResultAndSignal true [5, 1, 3, 7] (betSession 2)).statusText
      = "CONNECTION FAILED to ESP32" ∧
    (checkResultAndSignal true [5, 1, 3, 7] (betSession 2)).statusText
      ≠ "DEFEAT: Did not make the cut. Transmitting penalty... ⚡" ∧
    (checkResultAndSignal true [5, 1, 3, 7] (betSession 2)).requests = [] := by
  have h := checkResultAndSignal_of_throw [5, 1, 3, 7] 2 (betSession 2) rfl (by decide)
  refine ⟨rfl, by decide, h.1, ?_, h.2⟩
  rw [h.1]
  decide

/-! ## Rankings -/

theorem gameLoopRacer_id (W H : JSNum) (r : Racer) (u1 u2 : JSNum) :
    (gameLoopRacer W H r u1 u2).id = r.id := by
  unfold gameLoopRacer
  dsimp only
  split_ifs <;> rfl

theorem gameLoopMap_ids (W H : JSNum) (rand : Nat → JSNum) (rs : List Racer) (n : Nat) :
    (gameLoopMap W H rand n rs).1.map Racer.id = rs.map Racer.id := by
  induction rs generalizing n with
  | nil => rfl
  | cons r rest ih =>
    by_cases h : r.finished = true
    · simp [gameLoopMap, h, gameLoopRacer_id, ih]
    · simp [gameLoopMap, h, gameLoopRacer_id, ih]

theorem velocityChange_ids (racerId : Nat) (rs : List Racer) (u1 u2 : JSNum) :
    (velocityChange racerId rs u1 u2).1.map Racer.id = rs.map Racer.id := by
  unfold velocityChange
  split
  · rfl
  · split_ifs
    · rfl
    · simp only [List.map_map]
      apply List.map_congr_left
      intro r _
      simp only [Function.comp]
      split_ifs <;> rfl

/-- The new rankings extend the old ones by the ids, each once, of the finished racers
that are not yet ranked, in the order of the racers. -/
theorem currentFinishers_eq (rs : List Racer) :
    ∀ R : List Nat, (rs.map Racer.id).Nodup →
      currentFinishers R rs
        = R ++ (rs.filter (fun r => r.finished && !R.contains r.id)).map Racer.id := by
  induction rs with
  | nil => intro R _; simp [currentFinishers]
  | cons r rest ih =>
    intro R hnd
    have hnd' : (rest.map Racer.id).Nodup := (List.nodup_cons.1 (by simpa using hnd)).2
    have hnot : r.id ∉ rest.map Racer.id := (List.nodup_cons.1 (by simpa using hnd)).1
    have hstep : currentFinishers R (r :: rest)
        = currentFinishers (if r.finished && !R.contains r.id then R ++ [r.id] else R) rest := by
      simp [currentFinishers]
    rw [hstep]
    by_cases hc : (r.finished && !R.contains r.id) = true
    · rw [if_pos hc, ih _ hnd']
      have hfilter : rest.filter (fun x => x.finished && !(R ++ [r.id]).contains x.id)
          = rest.filter (fun x => x.finished && !R.contains x.id) := by
        apply List.filter_congr
        intro x hx
        have hxid : x.id ≠ r.id := by
          intro h
          exact hnot (h ▸ List.mem_map_of_mem Racer.id hx)
        simp [hxid]
      rw [hfilter, List.filter_cons, if_pos hc]
      simp
    · rw [if_neg hc, ih _ hnd', List.filter_cons, if_neg hc]

/-- Without any assumption on the ids: the old rankings are a prefix of the new ones. -/
theorem currentFinishers_prefix (rs : List Racer) :
    ∀ R : List Nat, ∃ suffix, currentFinishers R rs = R ++ suffix := by
  induction rs with
  | nil => intro R; exact ⟨[], by simp [currentFinishers]⟩
  | cons r rest ih =>
    intro R
    have hstep : currentFinishers R (r :: rest)
        = currentFinishers (if r.finished && !R.contains r.id then R ++ [r.id] else R) rest := by
      simp [currentFinishers]
    rw [hstep]
    split_ifs
    · obtain ⟨suf, h⟩ := ih (R ++ [r.id])
      exact ⟨r.id :: suf, by simp [h]⟩
    · exact ih R

theorem currentFinishers_nodup (rs : List Racer) :
    ∀ R : List Nat, R.Nodup → (currentFinishers R rs).Nodup := by
  induction rs with
  | nil => intro R h; simpa [currentFinishers] using h
  | cons r rest ih =>
    intro R hR
    have hstep : currentFinishers R (r :: rest)
        = currentFinishers (if r.finished && !R.contains r.id then R ++ [r.id] else R) rest := by
      simp [currentFinishers]
    rw [hstep]
    split_ifs with hc
    · apply ih
      have : r.id ∉ R := by
        have h2 := (Bool.and_eq_true _ _ ▸ hc).2
        simpa using h2
      exact List.Nodup.append hR (List.nodup_singleton _) (by simpa using this)
    · exact ih R hR

theorem currentFinishers_mem (rs : List Racer) :
    ∀ (R : List Nat) (id : Nat), id ∈ currentFinishers R rs →
      id ∈ R ∨ ∃ r ∈ rs, r.finished = true ∧ r.id = id := by
  induction rs with
  | nil => intro R id h; left; simpa [currentFinishers] using h
  | cons r rest ih =>
    intro R id h
    have hstep : currentFinishers R (r :: rest)
        = currentFinishers (if r.finished && !R.contains r.id then R ++ [r.id] else R) rest := by
      simp [currentFinishers]
    rw [hstep] at h
    rcases ih _ id h with h1 | ⟨x, hx, hfin, hid⟩
    · split_ifs at h1 with hc
      · rcases List.mem_append.1 h1 with h2 | h2
        · exact Or.inl h2
        · have hid : id = r.id := by simpa using h2
          have hfin : r.finished = true := by
            have := (Bool.and_eq_true _ _ ▸ hc).1
            exact this
          exact Or.inr ⟨r, List.mem_cons_self _ _, hfin, hid.symm⟩
      · exact Or.inl h1
    · exact Or.inr ⟨x, List.mem_cons_of_mem _ hx, hfin, hid⟩

/-- The rankings a tick in phase RACING leaves in the session. -/
theorem gameLoop_finishedRankings (c : Canvas) (rand : Nat → JSNum) (s : Session)
    (h : s.gameState = Phase.RACING) :
    (gameLoop (some c) rand s).finishedRankings
      = currentFinishers s.finishedRankings
          (gameLoopMap c.width c.height rand s.randIx s.racers).1 := by
  obtain ⟨suf, hsuf⟩ := currentFinishers_prefix
    (gameLoopMap c.width c.height rand s.randIx s.racers).1 s.finishedRankings
  simp only [gameLoop, h, ne_eq, not_true_eq_false, if_false]
  by_cases hlen : (currentFinishers s.finishedRankings
      (gameLoopMap c.width c.height rand s.randIx s.racers).1).length
        = s.finishedRankings.length
  · have hnil : suf = [] := by
      rw [hsuf] at hlen
      simpa using hlen
    have heq : currentFinishers s.finishedRankings
        (gameLoopMap c.width c.height rand s.randIx s.racers).1 = s.finishedRankings := by
      rw [hsuf, hnil]; simp
    rw [heq]
    simp
    split_ifs <;> rfl
  · simp only [hlen, not_false_eq_true, if_true]
    split_ifs <;> rfl

theorem gameLoop_gameState (c : Canvas) (rand : Nat → JSNum) (s : Session)
    (h : s.gameState = Phase.RACING) :
    (gameLoop (some c) rand s).gameState
      = if ((gameLoop (some c) rand s).finishedRankings.length : Int) ≥ s.difficulty
        then Phase.FINISHED else Phase.RACING := by
  rw [gameLoop_finishedRankings c rand s h]
  simp only [gameLoop, h, ne_eq, not_true_eq_false, if_false]
  split_ifs <;> simp_all

theorem gameLoop_difficulty (canvas : Option Canvas) (rand : Nat → JSNum) (s : Session) :
    (gameLoop canvas rand s).difficulty = s.difficulty := by
  cases canvas with
  | none => rfl
  | some c =>
    simp only [gameLoop]
    split_ifs <;> rfl

theorem timerFire_finishedRankings (racerId : Nat) (rand : Nat → JSNum) (s : Session) :
    (timerFire racerId rand s).finishedRankings = s.finishedRankings := by
  simp only [timerFire, scheduleNextChange]
  split_ifs <;> rfl

theorem timerFire_gameState (racerId : Nat) (rand : Nat → JSNum) (s : Session) :
    (timerFire racerId rand s).gameState = s.gameState := by
  simp only [timerFire, scheduleNextChange]
  split_ifs <;> rfl

theorem timerFire_difficulty (racerId : Nat) (rand : Nat → JSNum) (s : Session) :
    (timerFire racerId rand s).difficulty = s.difficulty := by
  simp only [timerFire, scheduleNextChange]
  split_ifs <;> rfl

/-! ## Invariants of reachable sessions -/

theorem spawnRacers_ids (width height : JSNum) (rand : Nat → JSNum) (l : List HorseConfig) :
    ∀ n, (spawnRacers width height rand n l).map Racer.id = l.map HorseConfig.id := by
  induction l with
  | nil => intro n; rfl
  | cons c rest ih => intro n; simp [spawnRacers, spawnRacer, ih]

theorem onClickFighter_racers (h : HorseConfig) (w ht : JSNum) (rand : Nat → JSNum)
    (s : Session) :
    (onClickFighter h w ht rand s).racers
      = spawnRacers w ht rand (s.randIx + 4 * 80) HORSES_CONFIG := rfl

theorem onClickFighter_finishedRankings (h : HorseConfig) (w ht : JSNum) (rand : Nat → JSNum)
    (s : Session) : (onClickFighter h w ht rand s).finishedRankings = [] := rfl

theorem onClickFighter_gameState (h : HorseConfig) (w ht : JSNum) (rand : Nat → JSNum)
    (s : Session) : (onClickFighter h w ht rand s).gameState = Phase.RACING := rfl

/-- In a reachable session the racers carry the ids of the roster, in roster order. -/
theorem reachable_ids (s : Session) (h : Reachable s) :
    s.racers.map Racer.id = [1, 2, 3, 4, 5, 6, 7, 8] := by
  induction h with
  | start s0 h hmem w ht rand =>
    rw [onClickFighter_racers, spawnRacers_ids]
    rfl
  | tick s canvas rand _ ih =>
    cases canvas with
    | none => exact ih
    | some c =>
      by_cases hr : s.gameState = Phase.RACING
      · rw [gameLoop_racers c rand s hr, gameLoopMap_ids, ih]
      · rw [gameLoop_of_not_racing _ _ _ hr]; exact ih
  | fire s racerId rand _ ih =>
    rw [timerFire_racers, velocityChange_ids, ih]

theorem reachable_rankings (s : Session) (h : Reachable s) :
    s.finishedRankings.Nodup ∧ ∀ id ∈ s.finishedRankings, id ∈ s.racers.map Racer.id := by
  induction h with
  | start s0 h hmem w ht rand =>
    rw [onClickFighter_finishedRankings]
    exact ⟨List.nodup_nil, by simp⟩
  | tick s canvas rand hs ih =>
    cases canvas with
    | none => exact ih
    | some c =>
      by_cases hr : s.gameState = Phase.RACING
      · rw [gameLoop_finishedRankings c rand s hr, gameLoop_racers c rand s hr]
        refine ⟨currentFinishers_nodup _ _ ih.1, ?_⟩
        intro id hid
        rcases currentFinishers_mem _ _ id hid with h1 | ⟨x, hx, _, hxid⟩
        · rw [gameLoopMap_ids]; exact ih.2 id h1
        · exact hxid ▸ List.mem_map_of_mem Racer.id hx
      · rw [gameLoop_of_not_racing _ _ _ hr]; exact ih
  | fire s racerId rand _ ih =>
    rw [timerFire_finishedRankings, timerFire_racers, velocityChange_ids]
    exact ih

/-- C3 (ranking well-formedness): in every session reachable from a freshly started race
the racers carry the ids 1..8 of `HORSES_CONFIG`, and the rankings contain no id
twice, contain only ids of racers of the collection, and have at most 8 entries. -/
theorem ranking_wellformed (s : Session) (h : Reachable s) :
    s.racers.map Racer.id = HORSES_CONFIG.map HorseConfig.id ∧
    s.finishedRankings.Nodup ∧
    (∀ id ∈ s.finishedRankings, ∃ r ∈ s.racers, r.id = id) ∧
    s.finishedRankings.length ≤ 8 := by
  obtain ⟨hnd, hsub⟩ := reachable_rankings s h
  have hids := reachable_ids s h
  refine ⟨hids, hnd, ?_, ?_⟩
  · intro id hid
    obtain ⟨r, hr, hrid⟩ := List.mem_map.1 (hsub id hid)
    exact ⟨r, hr, hrid⟩
  · have hsp : s.finishedRankings.Subperm (s.racers.map Racer.id) :=
      List.subperm_of_subset hnd hsub
    have := hsp.length_le
    rw [hids] at this
    simpa using this


theorem demoRace_reachable : Reachable demoRace :=
  Reachable.tick _ _ _ (Reachable.start demoSetup pinkPhantom (by simp [HORSES_CONFIG, pinkPhantom])
    (fin 1) (fin 1) demoRand)

/-- The invariants of the rankings after the first tick of the race `demoRace`. -/
theorem ranking_wellformed_witness :
    demoRace.racers.map Racer.id = HORSES_CONFIG.map HorseConfig.id ∧
    demoRace.finishedRankings.Nodup ∧
    (∀ id ∈ demoRace.finishedRankings, ∃ r ∈ demoRace.racers, r.id = id) ∧
    demoRace.finishedRankings.length ≤ 8 :=
  ranking_wellformed demoRace
    (Reachable.tick _ _ _ (Reachable.start demoSetup pinkPhantom
      (by simp [HORSES_CONFIG, pinkPhantom]) (fin 1) (fin 1) demoRand))

/-! ## The end of the race -/

/-- C6 (race-end transition): a tick executed in phase RACING leaves as rankings the
list `currentFinishers` (the rankings with the new finishers of this tick appended), and
the phase after the tick is FINISHED iff that list has at least `difficulty` entries;
otherwise the phase is still RACING. -/
theorem race_end_transition (c : Canvas) (rand : Nat → JSNum) (s : Session)
    (h : s.gameState = Phase.RACING) :
    (gameLoop (some c) rand s).finishedRankings
      = currentFinishers s.finishedRankings
          (gameLoopMap c.width c.height rand s.randIx s.racers).1 ∧
    ((gameLoop (some c) rand s).gameState = Phase.FINISHED ↔
      ((gameLoop (some c) rand s).finishedRankings.length : Int) ≥ s.difficulty) ∧
    (¬ ((gameLoop (some c) rand s).finishedRankings.length : Int) ≥ s.difficulty →
      (gameLoop (some c) rand s).gameState = Phase.RACING) := by
  refine ⟨gameLoop_finishedRankings c rand s h, ?_, ?_⟩
  · rw [gameLoop_gameState c rand s h]
    split_ifs with hc
    · simp [hc]
    · simp [hc]
  · intro hc
    rw [gameLoop_gameState c rand s h, if_neg hc]

/-- The race-end transition at the first tick of `demoStarted`. -/
theorem race_end_transition_witness :
    (gameLoop (some ⟨fin 1, fin 1⟩) demoRand demoStarted).finishedRankings
      = currentFinishers demoStarted.finishedRankings
          (gameLoopMap (fin 1) (fin 1) demoRand demoStarted.randIx demoStarted.racers).1 ∧
    ((gameLoop (some ⟨fin 1, fin 1⟩) demoRand demoStarted).gameState = Phase.FINISHED ↔
      ((gameLoop (some ⟨fin 1, fin 1⟩) demoRand demoStarted).finishedRankings.length : Int)
        ≥ demoStarted.difficulty) ∧
    (¬ ((gameLoop (some ⟨fin 1, fin 1⟩) demoRand demoStarted).finishedRankings.length : Int)
        ≥ demoStarted.difficulty →
      (gameLoop (some ⟨fin 1, fin 1⟩) demoRand demoStarted).gameState = Phase.RACING) :=
  race_end_transition ⟨fin 1, fin 1⟩ demoRand demoStarted rfl

/-- A frame that is run by the callback of the latest render appends: for such a tick in
phase RACING on racers with pairwise distinct ids, the rankings before the tick are a
prefix of the rankings after it, and the appended suffix is the list of the ids of the
racers that are finished after the tick and were not ranked before it, in the order of
the racer collection.  A frame of an earlier callback does not (`stale_frame_reorders`). -/
theorem rankings_append_only (c : Canvas) (rand : Nat → JSNum) (s : Session)
    (h : s.gameState = Phase.RACING) (hids : (s.racers.map Racer.id).Nodup) :
    s.finishedRankings <+: (gameLoop (some c) rand s).finishedRankings ∧
    (gameLoop (some c) rand s).finishedRankings
      = s.finishedRankings ++
          (((gameLoop (some c) rand s).racers.filter
            (fun r => r.finished && !s.finishedRankings.contains r.id)).map Racer.id) := by
  have heq : (gameLoop (some c) rand s).finishedRankings
      = s.finishedRankings ++
          (((gameLoop (some c) rand s).racers.filter
            (fun r => r.finished && !s.finishedRankings.contains r.id)).map Racer.id) := by
    rw [gameLoop_finishedRankings c rand s h, gameLoop_racers c rand s h]
    apply currentFinishers_eq
    rw [gameLoopMap_ids]
    exact hids
  exact ⟨⟨_, heq.symm⟩, heq⟩

theorem demoSession_tick :
    (gameLoop (some ⟨fin 1000, fin 800⟩) (fun _ => fin 0.25) demoSession).finishedRankings
      = [1, 2] := by decide!

/-! ## Difficulty and the number of ranked finishers -/

theorem onClickFighter_difficulty (h : HorseConfig) (w ht : JSNum) (rand : Nat → JSNum)
    (s : Session) : (onClickFighter h w ht rand s).difficulty = s.difficulty := rfl

/-- While a reachable race is in phase RACING fewer than `difficulty` racers are ranked;
once it is FINISHED at least `difficulty` are. -/
theorem reachable_phase (s : Session) (h : Reachable s) (hd : 1 ≤ s.difficulty) :
    (s.gameState = Phase.RACING ∨ s.gameState = Phase.FINISHED) ∧
    (s.gameState = Phase.RACING → (s.finishedRankings.length : Int) < s.difficulty) ∧
    (s.gameState = Phase.FINISHED → s.difficulty ≤ (s.finishedRankings.length : Int)) := by
  induction h with
  | start s0 h hmem w ht rand =>
    rw [onClickFighter_difficulty] at hd
    rw [onClickFighter_gameState, onClickFighter_finishedRankings, onClickFighter_difficulty]
    refine ⟨Or.inl rfl, fun _ => ?_, fun hf => ?_⟩
    · simp only [List.length_nil, Nat.cast_zero]; omega
    · cases hf
  | tick s canvas rand hs ih =>
    rw [gameLoop_difficulty] at hd
    cases canvas with
    | none => exact ih hd
    | some c =>
      by_cases hr : s.gameState = Phase.RACING
      · rw [gameLoop_gameState c rand s hr, gameLoop_difficulty]
        split_ifs with hc
        · refine ⟨Or.inr rfl, fun hf => ?_, fun _ => hc⟩
          cases hf
        · refine ⟨Or.inl rfl, fun _ => ?_, fun hf => ?_⟩
          · omega
          · cases hf
      · rw [gameLoop_of_not_racing _ _ _ hr]; exact ih hd
  | fire s racerId rand _ ih =>
    rw [timerFire_difficulty] at hd
    rw [timerFire_gameState, timerFire_finishedRankings, timerFire_difficulty]
    exact ih hd

theorem reachable_rankings_length (s : Session) (h : Reachable s) :
    s.finishedRankings.length ≤ 8 := by
  obtain ⟨hnd, hsub⟩ := reachable_rankings s h
  have hsp : s.finishedRankings.Subperm (s.racers.map Racer.id) :=
    List.subperm_of_subset hnd hsub
  have := hsp.length_le
  rw [reachable_ids s h] at this
  simpa using this

/-- C7 fails on the code: with difficulty 4, on a 1 × 1 viewport and with the draws
`demoRand`, all eight racers of a freshly started race reach the goal region in the first
frame, which is run by the callback of the render after the click.  All eight are ranked
before the race-end test, so the race is FINISHED with eight ranked ids, not four, and
the bet on racer 8 is reported as qualified at rank 8, with no penalty request. -/
theorem difficulty_overshoot :
    demoRace = gameLoopFrame demoStarted.closure (some { width := fin 1, height := fin 1 })
      demoRand demoStarted ∧
    Reachable demoRace ∧
    demoRace.difficulty = 4 ∧
    demoStarted.gameState = Phase.RACING ∧
    demoStarted.finishedRankings = [] ∧
    demoRace.gameState = Phase.FINISHED ∧
    demoRace.finishedRankings = [1, 2, 3, 4, 5, 6, 7, 8] ∧
    demoRace.finishedRankings.length ≠ 4 ∧
    demoRace.bet = some 8 ∧
    (checkResultAndSignal false demoRace.finishedRankings demoRace).statusText
      = "SAFE: Finished #8. No signal sent." ∧
    (checkResultAndSignal false demoRace.finishedRankings demoRace).requests = [] := by
  have hrank : demoRace.finishedRankings = [1, 2, 3, 4, 5, 6, 7, 8] := by decide!
  have hstate : demoRace.gameState = Phase.FINISHED := by decide!
  have hbet : demoRace.bet = some 8 := by decide!
  have hreq : demoRace.requests = [] := by decide!
  have h := checkResultAndSignal_of_mem false demoRace.finishedRankings 8 demoRace hbet
    (by rw [hrank]; decide)
  refine ⟨rfl, demoRace_reachable, by decide!, rfl, rfl, hstate, hrank,
    by rw [hrank]; decide, hbet, ?_, by rw [h.2, hreq]⟩
  rw [h.1, hrank]
  rfl

/-! ## The tail -/

theorem pushTail_length_le (tail : List Point) (p : Point) (h : tail.length ≤ TAIL_LENGTH) :
    (pushTail tail p).length ≤ TAIL_LENGTH := by
  unfold pushTail
  dsimp only
  split_ifs with hc
  · simp only [List.length_drop, List.length_append, List.length_singleton]; omega
  · omega

theorem pushTail_of_full (tail : List Point) (p : Point) (h : tail.length = TAIL_LENGTH) :
    pushTail tail p = tail.drop 1 ++ [p] := by
  unfold pushTail
  dsimp only
  have hc : (tail ++ [p]).length > TAIL_LENGTH := by simp [h]
  rw [if_pos hc]
  cases tail with
  | nil => simp [TAIL_LENGTH] at h
  | cons a rest => simp

theorem pushTail_of_not_full (tail : List Point) (p : Point) (h : tail.length < TAIL_LENGTH) :
    pushTail tail p = tail ++ [p] := by
  unfold pushTail
  dsimp only
  have hc : ¬ (tail ++ [p]).length > TAIL_LENGTH := by
    simp only [List.length_append, List.length_singleton]; omega
  rw [if_neg hc]

theorem gameLoopRacer_tail (W H : JSNum) (r : Racer) (u1 u2 : JSNum)
    (h : r.finished = false) :
    (gameLoopRacer W H r u1 u2).tail
      = pushTail r.tail { x := (moveRacer W H r u1 u2).x, y := (moveRacer W H r u1 u2).y } := by
  unfold gameLoopRacer
  simp only [h]
  split_ifs <;> first | rfl | simp_all

theorem gameLoopRacer_tail_length (W H : JSNum) (r : Racer) (u1 u2 : JSNum)
    (h : r.tail.length ≤ TAIL_LENGTH) :
    (gameLoopRacer W H r u1 u2).tail.length ≤ TAIL_LENGTH := by
  cases hf : r.finished with
  | true => rw [gameLoopRacer_of_finished W H r u1 u2 hf]; exact h
  | false => rw [gameLoopRacer_tail W H r u1 u2 hf]; exact pushTail_length_le _ _ h

/-- Every racer of the new collection is the callback's result on a racer of the old. -/
theorem gameLoopMap_mem (W H : JSNum) (rand : Nat → JSNum) (rs : List Racer) :
    ∀ n, ∀ r' ∈ (gameLoopMap W H rand n rs).1,
      ∃ r ∈ rs, ∃ u1 u2, r' = gameLoopRacer W H r u1 u2 := by
  induction rs with
  | nil => intro n r' hr'; simp [gameLoopMap] at hr'
  | cons a rest ih =>
    intro n r' hr'
    by_cases h : a.finished = true
    · simp only [gameLoopMap, h, if_true, List.mem_cons] at hr'
      rcases hr' with h1 | h1
      · exact ⟨a, List.mem_cons_self _ _, _, _, h1⟩
      · obtain ⟨r, hr, u1, u2, hu⟩ := ih n r' h1
        exact ⟨r, List.mem_cons_of_mem _ hr, u1, u2, hu⟩
    · simp only [gameLoopMap, h, Bool.false_eq_true, if_false, List.mem_cons] at hr'
      rcases hr' with h1 | h1
      · exact ⟨a, List.mem_cons_self _ _, _, _, h1⟩
      · obtain ⟨r, hr, u1, u2, hu⟩ := ih (n + 2) r' h1
        exact ⟨r, List.mem_cons_of_mem _ hr, u1, u2, hu⟩

theorem gameLoopMap_tails (W H : JSNum) (rand : Nat → JSNum) (rs : List Racer) (n : Nat)
    (h : ∀ r ∈ rs, r.tail.length ≤ TAIL_LENGTH) :
    ∀ r ∈ (gameLoopMap W H rand n rs).1, r.tail.length ≤ TAIL_LENGTH := by
  intro r' hr'
  obtain ⟨r, hr, u1, u2, rfl⟩ := gameLoopMap_mem W H rand rs n r' hr'
  exact gameLoopRacer_tail_length W H r u1 u2 (h r hr)

theorem velocityChange_tails (racerId : Nat) (rs : List Racer) (u1 u2 : JSNum)
    (h : ∀ r ∈ rs, r.tail.length ≤ TAIL_LENGTH) :
    ∀ r ∈ (velocityChange racerId rs u1 u2).1, r.tail.length ≤ TAIL_LENGTH := by
  unfold velocityChange
  split
  · exact h
  · split_ifs
    · exact h
    · intro r hr
      obtain ⟨x, hx, rfl⟩ := List.mem_map.1 hr
      split_ifs
      · exact h x hx
      · exact h x hx

theorem spawnRacers_tails (width height : JSNum) (rand : Nat → JSNum) (l : List HorseConfig) :
    ∀ n, ∀ r ∈ spawnRacers width height rand n l, r.tail = [] := by
  induction l with
  | nil => intro n r hr; simp [spawnRacers] at hr
  | cons c rest ih =>
    intro n r hr
    rcases List.mem_cons.1 hr with h | h
    · rw [h]; rfl
    · exact ih _ r h

theorem reachable_tails (s : Session) (h : Reachable s) :
    ∀ r ∈ s.racers, r.tail.length ≤ TAIL_LENGTH := by
  induction h with
  | start s0 h hmem w ht rand =>
    intro r hr
    rw [onClickFighter_racers] at hr
    rw [spawnRacers_tails _ _ _ _ _ r hr]
    simp
  | tick s canvas rand _ ih =>
    cases canvas with
    | none => exact ih
    | some c =>
      by_cases hr : s.gameState = Phase.RACING
      · rw [gameLoop_racers c rand s hr]
        exact gameLoopMap_tails _ _ _ _ _ ih
      · rw [gameLoop_of_not_racing _ _ _ hr]; exact ih
  | fire s racerId rand _ ih =>
    rw [timerFire_racers]
    exact velocityChange_tails _ _ _ _ ih

/-- C5 (tail bound): a tick keeps a tail of at most 20 entries at most 20 entries long;
for an unfinished racer the new position is appended as the last entry, and when the
tail was full the oldest entry is dropped; hence the tail of every racer of every
session reachable from a freshly started race has at most 20 entries. -/
theorem tail_bound (W H : JSNum) (r : Racer) (u1 u2 : JSNum) (h : r.tail.length ≤ 20) :
    (gameLoopRacer W H r u1 u2).tail.length ≤ 20 ∧
    (r.finished = false → r.tail.length = 20 →
      (gameLoopRacer W H r u1 u2).tail
        = r.tail.drop 1 ++ [{ x := (gameLoopRacer W H r u1 u2).x,
                              y := (gameLoopRacer W H r u1 u2).y }]) ∧
    (r.finished = false → r.tail.length < 20 →
      (gameLoopRacer W H r u1 u2).tail
        = r.tail ++ [{ x := (gameLoopRacer W H r u1 u2).x,
                       y := (gameLoopRacer W H r u1 u2).y }]) ∧
    (∀ s, Reachable s → ∀ r' ∈ s.racers, r'.tail.length ≤ 20) := by
  have hxy : r.finished = false →
      (gameLoopRacer W H r u1 u2).x = (moveRacer W H r u1 u2).x ∧
      (gameLoopRacer W H r u1 u2).y = (moveRacer W H r u1 u2).y := by
    intro hf
    unfold gameLoopRacer
    simp only [hf]
    split_ifs <;> first | exact ⟨rfl, rfl⟩ | simp_all
  refine ⟨gameLoopRacer_tail_length W H r u1 u2 h, ?_, ?_, reachable_tails⟩
  · intro hf hlen
    rw [(hxy hf).1, (hxy hf).2, gameLoopRacer_tail W H r u1 u2 hf]
    exact pushTail_of_full _ _ hlen
  · intro hf hlen
    rw [(hxy hf).1, (hxy hf).2, gameLoopRacer_tail W H r u1 u2 hf]
    exact pushTail_of_not_full _ _ hlen


/-- The tail bound at a running racer with a full tail, on a 1000 × 800 viewport. -/
theorem tail_bound_witness :
    (gameLoopRacer (fin 1000) (fin 800) fullTailRacer (fin 0.25) (fin 0.75)).tail.length ≤ 20 ∧
    (fullTailRacer.finished = false → fullTailRacer.tail.length = 20 →
      (gameLoopRacer (fin 1000) (fin 800) fullTailRacer (fin 0.25) (fin 0.75)).tail
        = fullTailRacer.tail.drop 1 ++
          [{ x := (gameLoopRacer (fin 1000) (fin 800) fullTailRacer (fin 0.25) (fin 0.75)).x,
             y := (gameLoopRacer (fin 1000) (fin 800) fullTailRacer (fin 0.25) (fin 0.75)).y }]) ∧
    (fullTailRacer.finished = false → fullTailRacer.tail.length < 20 →
      (gameLoopRacer (fin 1000) (fin 800) fullTailRacer (fin 0.25) (fin 0.75)).tail
        = fullTailRacer.tail ++
          [{ x := (gameLoopRacer (fin 1000) (fin 800) fullTailRacer (fin 0.25) (fin 0.75)).x,
             y := (gameLoopRacer (fin 1000) (fin 800) fullTailRacer (fin 0.25) (fin 0.75)).y }]) ∧
    (∀ s, Reachable s → ∀ r' ∈ s.racers, r'.tail.length ≤ 20) :=
  tail_bound (fin 1000) (fin 800) fullTailRacer (fin 0.25) (fin 0.75) (by decide)

/-! ## Arithmetic of finite numbers -/

@[simp]
theorem fin_add_fin (a b : ℚ) : fin a + fin b = fin (a + b) := rfl

@[simp]
theorem fin_sub_fin (a b : ℚ) : fin a - fin b = fin (a - b) := by
  show JSNum.add (fin a) (JSNum.neg (fin b)) = fin (a - b)
  simp [JSNum.add, JSNum.neg, sub_eq_add_neg]

@[simp]
theorem fin_mul_fin (a b : ℚ) : fin a * fin b = fin (a * b) := rfl

@[simp]
theorem neg_fin (a : ℚ) : -(fin a) = fin (-a) := rfl

/-! ## Fresh race seeding -/

theorem spawnRacer_spec (w h : ℚ) (hw : 0 ≤ w) (hh : 0 ≤ h) (rand : Nat → JSNum)
    (hr : unitDraws rand) (n : Nat) (config : HorseConfig) :
    ∃ x y vx vy : ℚ,
      spawnRacer (fin w) (fin h) rand n config
        = { id := config.id, name := config.name, color := config.color, emoji := config.emoji,
            x := fin x, y := fin y, vx := fin vx, vy := fin vy, tail := [], finished := false,
            finalX := fin 0, finalY := fin 0 } ∧
      0 ≤ x ∧ x ≤ 0.10 * w ∧ 0.90 * h ≤ y ∧ y ≤ h ∧
      0.3 ≤ vx ∧ vx ≤ 0.8 ∧ -0.8 ≤ vy ∧ vy ≤ -0.3 := by
  obtain ⟨a, ha, ha0, ha1⟩ := hr n
  obtain ⟨b, hb, hb0, hb1⟩ := hr (n + 1)
  obtain ⟨c, hc, hc0, hc1⟩ := hr (n + 2)
  obtain ⟨d, hd, hd0, hd1⟩ := hr (n + 3)
  refine ⟨a * (w * 0.10), h * 0.90 + b * (h * 0.10), c * 0.5 + 0.3, -(d * 0.5) - 0.3, ?_,
    ?_, ?_, ?_, ?_, ?_, ?_, ?_, ?_⟩
  · simp [spawnRacer, ha, hb, hc, hd]
  · positivity
  · nlinarith
  · nlinarith
  · nlinarith
  · linarith
  · linarith
  · linarith
  · linarith

theorem spawnRacers_spec (w h : ℚ) (hw : 0 ≤ w) (hh : 0 ≤ h) (rand : Nat → JSNum)
    (hr : unitDraws rand) (l : List HorseConfig) :
    ∀ n, ∀ r ∈ spawnRacers (fin w) (fin h) rand n l,
      ∃ x y vx vy : ℚ, r.x = fin x ∧ r.y = fin y ∧ r.vx = fin vx ∧ r.vy = fin vy ∧
        0 ≤ x ∧ x ≤ 0.10 * w ∧ 0.90 * h ≤ y ∧ y ≤ h ∧
        0.3 ≤ vx ∧ vx ≤ 0.8 ∧ -0.8 ≤ vy ∧ vy ≤ -0.3 ∧
        r.tail = [] ∧ r.finished = false ∧ r.finalX = fin 0 ∧ r.finalY = fin 0 := by
  induction l with
  | nil => intro n r hr'; simp [spawnRacers] at hr'
  | cons c rest ih =>
    intro n r hr'
    rcases List.mem_cons.1 hr' with h1 | h1
    · obtain ⟨x, y, vx, vy, heq, hb⟩ := spawnRacer_spec w h hw hh rand hr n c
      rw [h1, heq]
      exact ⟨x, y, vx, vy, rfl, rfl, rfl, rfl, hb.1, hb.2.1, hb.2.2.1, hb.2.2.2.1,
        hb.2.2.2.2.1, hb.2.2.2.2.2.1, hb.2.2.2.2.2.2.1, hb.2.2.2.2.2.2.2, rfl, rfl, rfl, rfl⟩
    · exact ih _ r h1

theorem spawnRacers_profiles (width height : JSNum) (rand : Nat → JSNum)
    (l : List HorseConfig) :
    ∀ n, (spawnRacers width height rand n l).map
        (fun r => ({ id := r.id, name := r.name, color := r.color, emoji := r.emoji }
          : HorseConfig)) = l := by
  induction l with
  | nil => intro n; rfl
  | cons c rest ih => intro n; simp [spawnRacers, spawnRacer, ih]

/-- The seeding in exact arithmetic, without the rounding of binary64: for a finite
viewport with `width ≥ 0` and `height ≥ 0` and draws in `[0, 1)`, `initializeRace` returns
exactly 8 racers, one per entry of `HORSES_CONFIG` in roster order, each with
`0 ≤ x ≤ 0.10 * width`, `0.90 * height ≤ y ≤ height`, `0.3 ≤ vx ≤ 0.8`,
`-0.8 ≤ vy ≤ -0.3`, an empty tail and `finished = false`, and it resets the rankings to
the empty list.  With the rounding of binary64 the bound `y ≤ height` fails
(`spawn_height_overshoot`). -/
theorem initializeRace_exact (w h : ℚ) (rand : Nat → JSNum) (s : Session)
    (hw : 0 ≤ w) (hh : 0 ≤ h) (hr : unitDraws rand) :
    (initializeRace (fin w) (fin h) rand s).1.length = 8 ∧
    (initializeRace (fin w) (fin h) rand s).1.map
        (fun r => ({ id := r.id, name := r.name, color := r.color, emoji := r.emoji }
          : HorseConfig)) = HORSES_CONFIG ∧
    (∀ r ∈ (initializeRace (fin w) (fin h) rand s).1,
      ∃ x y vx vy : ℚ, r.x = fin x ∧ r.y = fin y ∧ r.vx = fin vx ∧ r.vy = fin vy ∧
        0 ≤ x ∧ x ≤ 0.10 * w ∧ 0.90 * h ≤ y ∧ y ≤ h ∧
        0.3 ≤ vx ∧ vx ≤ 0.8 ∧ -0.8 ≤ vy ∧ vy ≤ -0.3 ∧
        r.tail = [] ∧ r.finished = false ∧ r.finalX = fin 0 ∧ r.finalY = fin 0) ∧
    (initializeRace (fin w) (fin h) rand s).2.finishedRankings = [] := by
  have hprof := spawnRacers_profiles (fin w) (fin h) rand HORSES_CONFIG (s.randIx + 4 * 80)
  refine ⟨?_, hprof, ?_, rfl⟩
  · have := congrArg List.length hprof
    simpa [HORSES_CONFIG] using this
  · exact spawnRacers_spec w h hw hh rand hr HORSES_CONFIG _

/-! ## The spawn height in binary64 -/

theorem log2Fuel_eq : ∀ (fuel n : Nat), n ≤ fuel → log2Fuel fuel n = Nat.log2 n := by
  intro fuel
  induction fuel with
  | zero =>
    intro n hn
    have : n = 0 := by omega
    subst this
    rw [Nat.log2]
    simp [log2Fuel]
  | succ f ih =>
    intro n hn
    rw [Nat.log2]
    unfold log2Fuel
    by_cases h : n < 2
    · simp [h, not_le.2 h]
    · have h2 : n ≥ 2 := not_lt.1 h
      simp only [h, if_false, h2, if_true]
      rw [ih (n / 2) (by omega)]

/-- The binary logarithm of the model is the one of the library. -/
theorem ilog2_eq (n : Nat) : ilog2 n = Nat.log2 n := log2Fuel_eq n n le_rfl

theorem round64_literals :
    round64 0.90 = 8106479329266893 / 9007199254740992 ∧
    round64 0.10 = 3602879701896397 / 36028797018963968 := by
  constructor <;> decide!

/-- C9 fails on the code: for the height 37 and the draw `1 - 2^-53` (the double
`0.9999999999999999`, a value in `[0, 1)`), line 64 evaluated in binary64 gives
`37 + 2^-47` (the double `37.00000000000001`), above the height.  The steps are
`37 * 0.90 = 33.300000000000004`, `37 * 0.10 = 3.7`, the draw times `3.7` is
`3.6999999999999997`, and the sum rounds up.  In exact arithmetic the same line stays
below the height. -/
theorem spawn_height_overshoot :
    round64 (1 - 1 / 2 ^ 53) = 1 - 1 / 2 ^ 53 ∧
    round64 (37 * round64 0.90) = 4686558362232423 / 140737488355328 ∧
    round64 (37 * round64 0.10) = 4165829655317709 / 1125899906842624 ∧
    round64 ((1 - 1 / 2 ^ 53) * round64 (37 * round64 0.10))
      = 8331659310635417 / 2251799813685248 ∧
    startY64 37 (1 - 1 / 2 ^ 53) = 37 + 1 / 2 ^ 47 ∧
    (37 : ℚ) < startY64 37 (1 - 1 / 2 ^ 53) ∧
    (37 : ℚ) * 0.90 + (1 - 1 / 2 ^ 53) * (37 * 0.10) ≤ 37 := by
  obtain ⟨h09, h01⟩ := round64_literals
  have hu : round64 (1 - 1 / 2 ^ 53) = 1 - 1 / 2 ^ 53 := by decide!
  have ha : round64 (37 * round64 0.90) = 4686558362232423 / 140737488355328 := by
    rw [h09]; decide!
  have hb : round64 (37 * round64 0.10) = 4165829655317709 / 1125899906842624 := by
    rw [h01]; decide!
  have hc : round64 ((1 - 1 / 2 ^ 53) * round64 (37 * round64 0.10))
      = 8331659310635417 / 2251799813685248 := by
    rw [hb]; decide!
  have hy : startY64 37 (1 - 1 / 2 ^ 53) = 37 + 1 / 2 ^ 47 := by
    unfold startY64
    rw [hc, ha]
    decide!
  refine ⟨hu, ha, hb, hc, hy, ?_, ?_⟩
  · rw [hy]; norm_num
  · norm_num

/-! ## The goal test -/

/-- The callback of the tick on a running racer. -/
theorem gameLoopRacer_of_running (W H : JSNum) (r : Racer) (u1 u2 : JSNum)
    (h : r.finished = false) :
    gameLoopRacer W H r u1 u2
      = if JSNum.lt (distToCorner W (moveRacer W H r u1 u2).x (moveRacer W H r u1 u2).y)
            (GOAL_RADIUS W H) = true then
          { r with x := (moveRacer W H r u1 u2).x, y := (moveRacer W H r u1 u2).y,
                   vx := (moveRacer W H r u1 u2).vx, vy := (moveRacer W H r u1 u2).vy,
                   tail := pushTail r.tail
                     { x := (moveRacer W H r u1 u2).x, y := (moveRacer W H r u1 u2).y },
                   finished := true,
                   finalX := (moveRacer W H r u1 u2).x, finalY := (moveRacer W H r u1 u2).y }
        else
          { r with x := (moveRacer W H r u1 u2).x, y := (moveRacer W H r u1 u2).y,
                   vx := (moveRacer W H r u1 u2).vx, vy := (moveRacer W H r u1 u2).vy,
                   tail := pushTail r.tail
                     { x := (moveRacer W H r u1 u2).x, y := (moveRacer W H r u1 u2).y } } := by
  unfold gameLoopRacer
  simp [h]

theorem gameLoopRacer_motion (W H : JSNum) (r : Racer) (u1 u2 : JSNum)
    (h : r.finished = false) :
    (gameLoopRacer W H r u1 u2).x = (moveRacer W H r u1 u2).x ∧
    (gameLoopRacer W H r u1 u2).y = (moveRacer W H r u1 u2).y ∧
    (gameLoopRacer W H r u1 u2).vx = (moveRacer W H r u1 u2).vx ∧
    (gameLoopRacer W H r u1 u2).vy = (moveRacer W H r u1 u2).vy := by
  rw [gameLoopRacer_of_running W H r u1 u2 h]
  split_ifs <;> exact ⟨rfl, rfl, rfl, rfl⟩

theorem gameLoopRacer_finished (W H : JSNum) (r : Racer) (u1 u2 : JSNum)
    (h : r.finished = false) :
    (gameLoopRacer W H r u1 u2).finished
      = JSNum.lt (distToCorner W (moveRacer W H r u1 u2).x (moveRacer W H r u1 u2).y)
          (GOAL_RADIUS W H) := by
  rw [gameLoopRacer_of_running W H r u1 u2 h]
  split_ifs with h1
  · simp [h1]
  · simp [h1, h]

theorem gameLoopRacer_final (W H : JSNum) (r : Racer) (u1 u2 : JSNum)
    (h : r.finished = false) :
    ((gameLoopRacer W H r u1 u2).finished = true →
      (gameLoopRacer W H r u1 u2).finalX = (gameLoopRacer W H r u1 u2).x ∧
      (gameLoopRacer W H r u1 u2).finalY = (gameLoopRacer W H r u1 u2).y) ∧
    ((gameLoopRacer W H r u1 u2).finished = false →
      (gameLoopRacer W H r u1 u2).finalX = r.finalX ∧
      (gameLoopRacer W H r u1 u2).finalY = r.finalY) := by
  rw [gameLoopRacer_of_running W H r u1 u2 h]
  split_ifs with h1
  · simp
  · simp [h]

/-- C4, as the code has it: for an unfinished racer the tick writes the position after
integration and wall bounce into the record, and the returned racer is finished iff that
position `(x, y)` satisfies `sqrt((W - x)^2 + (0 - y)^2) < max(W, H) * 0.15`; then
`finalX = x` and `finalY = y`, and otherwise `finished` stays false and the final position
is untouched.  On a 1000 × 800 viewport the radius is 150, a position `(900, 50)` passes
the test and `(850, 100)` does not. -/
theorem goal_test (W H : JSNum) (r : Racer) (u1 u2 : JSNum) (h : r.finished = false) :
    (gameLoopRacer W H r u1 u2).x = (moveRacer W H r u1 u2).x ∧
    (gameLoopRacer W H r u1 u2).y = (moveRacer W H r u1 u2).y ∧
    ((gameLoopRacer W H r u1 u2).finished = true ↔
      JSNum.lt
        (JSNum.sqrt (JSNum.pow (W - (gameLoopRacer W H r u1 u2).x) 2
          + JSNum.pow (fin 0 - (gameLoopRacer W H r u1 u2).y) 2))
        (JSNum.max W H * fin 0.15) = true) ∧
    ((gameLoopRacer W H r u1 u2).finished = true →
      (gameLoopRacer W H r u1 u2).finalX = (gameLoopRacer W H r u1 u2).x ∧
      (gameLoopRacer W H r u1 u2).finalY = (gameLoopRacer W H r u1 u2).y) ∧
    ((gameLoopRacer W H r u1 u2).finished = false →
      (gameLoopRacer W H r u1 u2).finalX = r.finalX ∧
      (gameLoopRacer W H r u1 u2).finalY = r.finalY) ∧
    GOAL_RADIUS (fin 1000) (fin 800) = fin 150 ∧
    JSNum.lt (distToCorner (fin 1000) (fin 900) (fin 50)) (GOAL_RADIUS (fin 1000) (fin 800))
      = true ∧
    JSNum.lt (distToCorner (fin 1000) (fin 850) (fin 100)) (GOAL_RADIUS (fin 1000) (fin 800))
      = false := by
  obtain ⟨hx, hy, _, _⟩ := gameLoopRacer_motion W H r u1 u2 h
  refine ⟨hx, hy, ?_, (gameLoopRacer_final W H r u1 u2 h).1,
    (gameLoopRacer_final W H r u1 u2 h).2, by decide!, by decide!, by decide!⟩
  rw [hx, hy, gameLoopRacer_finished W H r u1 u2 h]
  rfl

/-- The goal test at the running racer of `demoSession`, at `(900, 50)` on a 1000 × 800
viewport. -/
theorem goal_test_witness :
    (gameLoopRacer (fin 1000) (fin 800) (demoRacer 2 false) (fin 0.25) (fin 0.75)).finished
      = true ∧
    (gameLoopRacer (fin 1000) (fin 800) (demoRacer 2 false) (fin 0.25) (fin 0.75)).finalX
      = (gameLoopRacer (fin 1000) (fin 800) (demoRacer 2 false) (fin 0.25) (fin 0.75)).x := by
  have h := goal_test (fin 1000) (fin 800) (demoRacer 2 false) (fin 0.25) (fin 0.75) rfl
  have hfin : (gameLoopRacer (fin 1000) (fin 800) (demoRacer 2 false) (fin 0.25)
      (fin 0.75)).finished = true := h.2.2.1.2 (by decide!)
  exact ⟨hfin, (h.2.2.2.1 hfin).1⟩

/-- C4 fails as stated: on a 1000 × 800 viewport `GOAL_RADIUS` is 150, not 120, and a
position `(880, 50)`, at distance 130 from the corner, passes the goal test. -/
theorem goal_test_counterexample :
    GOAL_RADIUS (fin 1000) (fin 800) = fin 150 ∧
    GOAL_RADIUS (fin 1000) (fin 800) ≠ fin 120 ∧
    distToCorner (fin 1000) (fin 880) (fin 50) = fin 130 ∧
    JSNum.lt (fin 130) (fin 120) = false ∧
    JSNum.lt (distToCorner (fin 1000) (fin 880) (fin 50)) (GOAL_RADIUS (fin 1000) (fin 800))
      = true := by
  refine ⟨by decide!, by decide!, by decide!, by decide!, by decide!⟩

/-! ## A racer at the goal corner -/

@[simp]
theorem nan_add (a : JSNum) : nan + a = nan := rfl

@[simp]
theorem add_nan (a : JSNum) : a + nan = nan := by cases a <;> rfl

@[simp]
theorem nan_mul (a : JSNum) : nan * a = nan := rfl

@[simp]
theorem mul_nan (a : JSNum) : a * nan = nan := by cases a <;> rfl

@[simp]
theorem sub_nan (a : JSNum) : a - nan = nan := by cases a <;> rfl

@[simp]
theorem nan_sub (a : JSNum) : nan - a = nan := rfl

@[simp]
theorem nan_lt (a : JSNum) : JSNum.lt nan a = false := rfl

@[simp]
theorem lt_nan (a : JSNum) : JSNum.lt a nan = false := by cases a <;> rfl

@[simp]
theorem sqrt_nan : JSNum.sqrt nan = nan := rfl

theorem sqrtQ_zero : sqrtQ 0 = 0 := by decide!

/-- The drift step at the corner: `dist` is 0 and both quotients are `0 / 0 = NaN`. -/
theorem corner_division (w : ℚ) :
    JSNum.sqrt ((fin w - fin w) * (fin w - fin w) + (fin 0 - fin 0) * (fin 0 - fin 0)) = fin 0 ∧
    (fin w - fin w) / fin 0 = nan ∧ (fin 0 - fin 0) / fin 0 = nan := by
  refine ⟨?_, ?_, ?_⟩
  · simp [JSNum.sqrt, sqrtQ_zero]
  · show JSNum.div (fin w - fin w) (fin 0) = nan
    simp [JSNum.div, JSNum.signedInf]
  · show JSNum.div (fin 0 - fin 0) (fin 0) = nan
    simp [JSNum.div, JSNum.signedInf]

/-- The tick on a running racer at the goal corner `(W, 0)`, for every finite `W`: the
division by the zero distance makes position and velocity `NaN`, and the racer is not
finished. -/
theorem corner_tick (w : ℚ) (H u1 u2 : JSNum) (r : Racer)
    (hx : r.x = fin w) (hy : r.y = fin 0) (hf : r.finished = false) :
    (gameLoopRacer (fin w) H r u1 u2).x = nan ∧
    (gameLoopRacer (fin w) H r u1 u2).y = nan ∧
    (gameLoopRacer (fin w) H r u1 u2).vx = nan ∧
    (gameLoopRacer (fin w) H r u1 u2).vy = nan ∧
    (gameLoopRacer (fin w) H r u1 u2).finished = false := by
  obtain ⟨hdist, hdx, hdy⟩ := corner_division w
  have hm : moveRacer (fin w) H r u1 u2 = { x := nan, y := nan, vx := nan, vy := nan } := by
    unfold moveRacer
    simp only [hx, hy, hdist, hdx, hdy]
    simp [JSNum.gt]
  obtain ⟨h1, h2, h3, h4⟩ := gameLoopRacer_motion (fin w) H r u1 u2 hf
  refine ⟨by rw [h1, hm], by rw [h2, hm], by rw [h3, hm], by rw [h4, hm], ?_⟩
  rw [gameLoopRacer_finished (fin w) H r u1 u2 hf, hm]
  simp [distToCorner, JSNum.pow]

/-- C10 fails on the code: the tick on the running racer `cornerRacer`, exactly at the goal
corner of a 1000 × 800 viewport, divides by the zero distance; position and velocity
become `NaN`, which is not finite, and the racer is not marked finished, neither in this
tick nor in the next.  The state arises from `initializeRace` on a 0 × 0 viewport, where
every racer spawns at the corner and none of them is finished by the first tick. -/
theorem corner_guard_missing :
    (gameLoopRacer (fin 1000) (fin 800) cornerRacer (fin 0.5) (fin 0.5)).vx = nan ∧
    (gameLoopRacer (fin 1000) (fin 800) cornerRacer (fin 0.5) (fin 0.5)).vy = nan ∧
    JSNum.isFinite (gameLoopRacer (fin 1000) (fin 800) cornerRacer (fin 0.5) (fin 0.5)).vx
      = false ∧
    (gameLoopRacer (fin 1000) (fin 800) cornerRacer (fin 0.5) (fin 0.5)).finished = false ∧
    (gameLoopRacer (fin 1000) (fin 800)
      (gameLoopRacer (fin 1000) (fin 800) cornerRacer (fin 0.5) (fin 0.5))
      (fin 0.5) (fin 0.5)).finished = false ∧
    zeroStarted.racers.map (fun r => (r.x, r.y, r.finished))
      = List.replicate 8 (fin 0, fin 0, false) ∧
    (gameLoop (some ⟨fin 0, fin 0⟩) halfRand zeroStarted).racers.map
        (fun r => (r.vx, r.vy, r.finished))
      = List.replicate 8 (nan, nan, false) ∧
    (gameLoop (some ⟨fin 0, fin 0⟩) halfRand zeroStarted).finishedRankings = [] := by
  obtain ⟨_, _, h3, h4, h5⟩ :=
    corner_tick 1000 (fin 800) (fin 0.5) (fin 0.5) cornerRacer rfl rfl rfl
  refine ⟨h3, h4, by rw [h3]; rfl, h5, by decide!, by decide!, by decide!, by decide!⟩

/-! ## The square root of the number model -/

theorem isqrtFuel_spec : ∀ (fuel n : Nat), n ≤ fuel →
    isqrtFuel fuel n * isqrtFuel fuel n ≤ n ∧
    n < (isqrtFuel fuel n + 1) * (isqrtFuel fuel n + 1) := by
  intro fuel
  induction fuel with
  | zero =>
    intro n hn
    have : n = 0 := by omega
    subst this
    simp [isqrtFuel]
  | succ f ih =>
    intro n hn
    unfold isqrtFuel
    by_cases h0 : n = 0
    · simp [h0]
    · simp only [h0, if_false]
      obtain ⟨h1, h2⟩ := ih (n / 4) (by omega)
      have hdiv : 4 * (n / 4) ≤ n := Nat.mul_div_le n 4
      have hdiv2 : n < 4 * (n / 4) + 4 := by omega
      generalize isqrtFuel f (n / 4) = r at h1 h2
      generalize n / 4 = m at h1 h2 hdiv hdiv2
      split_ifs with hc
      · refine ⟨hc, ?_⟩
        nlinarith
      · refine ⟨by nlinarith, ?_⟩
        omega

/-- The integer square root of the model is the mathematical one. -/
theorem isqrt_eq_sqrt (n : Nat) : isqrt n = Nat.sqrt n := by
  obtain ⟨h1, h2⟩ := isqrtFuel_spec n n le_rfl
  exact Nat.eq_sqrt.2 ⟨h1, h2⟩

/-! ## Rankings and finished flags -/

theorem currentFinishers_subset (rs : List Racer) (R : List Nat) (id : Nat) (h : id ∈ R) :
    id ∈ currentFinishers R rs := by
  obtain ⟨suf, hsuf⟩ := currentFinishers_prefix rs R
  rw [hsuf]
  exact List.mem_append_left _ h

/-- Every racer that is finished after the tick is ranked after the tick. -/
theorem currentFinishers_complete (rs : List Racer) :
    ∀ (R : List Nat), ∀ r ∈ rs, r.finished = true → r.id ∈ currentFinishers R rs := by
  induction rs with
  | nil => intro R r hr; simp at hr
  | cons a rest ih =>
    intro R r hr hfin
    have hstep : currentFinishers R (a :: rest)
        = currentFinishers (if a.finished && !R.contains a.id then R ++ [a.id] else R) rest := by
      simp [currentFinishers]
    rw [hstep]
    rcases List.mem_cons.1 hr with h1 | h1
    · subst h1
      apply currentFinishers_subset
      by_cases hc : r.id ∈ R
      · split_ifs
        · exact List.mem_append_left _ hc
        · exact hc
      · have : (r.finished && !R.contains r.id) = true := by simp [hfin, hc]
        rw [if_pos this]
        simp
    · exact ih _ r h1 hfin

theorem velocityChange_mem (racerId : Nat) (rs : List Racer) (u1 u2 : JSNum) :
    ∀ r' ∈ (velocityChange racerId rs u1 u2).1,
      ∃ r ∈ rs, r'.id = r.id ∧ r'.finished = r.finished ∧ r'.x = r.x ∧ r'.y = r.y ∧
        r'.tail = r.tail := by
  unfold velocityChange
  split
  · intro r' hr'; exact ⟨r', hr', rfl, rfl, rfl, rfl, rfl⟩
  · split_ifs
    · intro r' hr'; exact ⟨r', hr', rfl, rfl, rfl, rfl, rfl⟩
    · intro r' hr'
      obtain ⟨x, hx, rfl⟩ := List.mem_map.1 hr'
      refine ⟨x, hx, ?_⟩
      split_ifs <;> exact ⟨rfl, rfl, rfl, rfl, rfl⟩

theorem spawnRacers_unfinished (width height : JSNum) (rand : Nat → JSNum)
    (l : List HorseConfig) :
    ∀ n, ∀ r ∈ spawnRacers width height rand n l, r.finished = false := by
  induction l with
  | nil => intro n r hr; simp [spawnRacers] at hr
  | cons c rest ih =>
    intro n r hr
    rcases List.mem_cons.1 hr with h | h
    · rw [h]; rfl
    · exact ih _ r h

theorem reachable_mirror (s : Session) (h : Reachable s) :
    ∀ r ∈ s.racers, (r.finished = true ↔ r.id ∈ s.finishedRankings) := by
  induction h with
  | start s0 h hmem w ht rand =>
    intro r hr
    rw [onClickFighter_racers] at hr
    rw [onClickFighter_finishedRankings, spawnRacers_unfinished _ _ _ _ _ r hr]
    simp
  | tick s canvas rand hs ih =>
    cases canvas with
    | none => exact ih
    | some c =>
      by_cases hr : s.gameState = Phase.RACING
      · rw [gameLoop_finishedRankings c rand s hr, gameLoop_racers c rand s hr]
        intro r' hr'
        constructor
        · exact currentFinishers_complete _ _ r' hr'
        · intro hid
          rcases currentFinishers_mem _ _ _ hid with h1 | ⟨x, hx, hxfin, hxid⟩
          · obtain ⟨r, hrmem, u1, u2, rfl⟩ := gameLoopMap_mem _ _ _ _ _ r' hr'
            rw [gameLoopRacer_id] at h1
            have hfin : r.finished = true := (ih r hrmem).2 h1
            rw [gameLoopRacer_of_finished _ _ _ _ _ hfin]
            exact hfin
          · have hnd : ((gameLoopMap c.width c.height rand s.randIx s.racers).1.map
                Racer.id).Nodup := by
              rw [gameLoopMap_ids, reachable_ids s hs]; decide
            have : x = r' := List.inj_on_of_nodup_map hnd hx hr' hxid
            rw [← this]; exact hxfin
      · rw [gameLoop_of_not_racing _ _ _ hr]; exact ih
  | fire s racerId rand _ ih =>
    rw [timerFire_finishedRankings, timerFire_racers]
    intro r' hr'
    obtain ⟨r, hr, hid, hfin, _⟩ := velocityChange_mem _ _ _ _ r' hr'
    rw [hid, hfin]
    exact ih r hr

/-- C14 (rankings mirror the finished flags): in every session reachable from a freshly
started race by ticks and timer firings, a racer is finished iff its id is in the
rankings, and every ranked id is the id of a finished racer of the collection. -/
theorem rankings_mirror_finished (s : Session) (h : Reachable s) :
    (∀ r ∈ s.racers, (r.finished = true ↔ r.id ∈ s.finishedRankings)) ∧
    (∀ id ∈ s.finishedRankings, ∃ r ∈ s.racers, r.id = id ∧ r.finished = true) := by
  refine ⟨reachable_mirror s h, ?_⟩
  intro id hid
  obtain ⟨r, hr, hrid⟩ := List.mem_map.1 ((reachable_rankings s h).2 id hid)
  exact ⟨r, hr, hrid, (reachable_mirror s h r hr).2 (hrid ▸ hid)⟩

/-- The mirror property at the race `demoRace`, after the first tick on a 1 × 1 viewport. -/
theorem rankings_mirror_finished_witness :
    (∀ r ∈ demoRace.racers, (r.finished = true ↔ r.id ∈ demoRace.finishedRankings)) ∧
    (∀ id ∈ demoRace.finishedRankings, ∃ r ∈ demoRace.racers, r.id = id ∧ r.finished = true) :=
  rankings_mirror_finished demoRace
    (Reachable.tick _ _ _ (Reachable.start demoSetup pinkPhantom
      (by simp [HORSES_CONFIG, pinkPhantom]) (fin 1) (fin 1) demoRand))

/-! ## The chain of a perturbation timer -/

theorem timerFire_gameStateRef (racerId : Nat) (rand : Nat → JSNum) (s : Session) :
    (timerFire racerId rand s).gameStateRef = s.gameStateRef := by
  simp only [timerFire, scheduleNextChange]
  split_ifs <;> rfl

theorem timerFire_timers_of_racing (racerId : Nat) (rand : Nat → JSNum) (s : Session)
    (h : s.gameStateRef = Phase.RACING) :
    ∃ delay, (timerFire racerId rand s).velocityChangeTimers
      = s.velocityChangeTimers ++ [{ racerId := racerId, delay := delay }] := by
  simp only [timerFire, scheduleNextChange, h, if_true]
  exact ⟨_, rfl⟩

theorem timerFire_timers_of_not_racing (racerId : Nat) (rand : Nat → JSNum) (s : Session)
    (h : s.gameStateRef ≠ Phase.RACING) :
    (timerFire racerId rand s).velocityChangeTimers = s.velocityChangeTimers := by
  simp only [timerFire, scheduleNextChange, h, if_false]

theorem velocityChange_of_finished (racerId : Nat) (rs : List Racer) (u1 u2 : JSNum)
    (r : Racer) (hfind : rs.find? (fun x => x.id == racerId) = some r)
    (hfin : r.finished = true) : (velocityChange racerId rs u1 u2).1 = rs := by
  simp [velocityChange, hfind, hfin]

theorem velocityChange_of_absent (racerId : Nat) (rs : List Racer) (u1 u2 : JSNum)
    (hfind : rs.find? (fun x => x.id == racerId) = none) :
    (velocityChange racerId rs u1 u2).1 = rs := by
  simp [velocityChange, hfind]

/-- C11, as the code has it: a firing of the timer of racer `racerId` schedules a further
firing iff `gameStateRef` is RACING, whether or not the racer has finished: in phase
RACING exactly one timer for the same racer is recorded, and in any other phase none.
When the racer found for the id is finished, or no racer has the id, the firing changes
no racer.  The firing never changes the phase. -/
theorem perturbation_chain (racerId : Nat) (rand : Nat → JSNum) (s : Session) :
    ((timerFire racerId rand s).velocityChangeTimers ≠ s.velocityChangeTimers ↔
      s.gameStateRef = Phase.RACING) ∧
    (s.gameStateRef = Phase.RACING →
      ∃ delay, (timerFire racerId rand s).velocityChangeTimers
        = s.velocityChangeTimers ++ [{ racerId := racerId, delay := delay }]) ∧
    (s.gameStateRef ≠ Phase.RACING →
      (timerFire racerId rand s).velocityChangeTimers = s.velocityChangeTimers) ∧
    (∀ r, s.racers.find? (fun x => x.id == racerId) = some r → r.finished = true →
      (timerFire racerId rand s).racers = s.racers) ∧
    (s.racers.find? (fun x => x.id == racerId) = none →
      (timerFire racerId rand s).racers = s.racers) ∧
    (timerFire racerId rand s).gameStateRef = s.gameStateRef ∧
    (timerFire racerId rand s).gameState = s.gameState := by
  refine ⟨?_, timerFire_timers_of_racing racerId rand s,
    timerFire_timers_of_not_racing racerId rand s, ?_, ?_,
    timerFire_gameStateRef racerId rand s, timerFire_gameState racerId rand s⟩
  · constructor
    · intro hne
      by_contra hr
      exact hne (timerFire_timers_of_not_racing racerId rand s hr)
    · intro hr
      obtain ⟨delay, hd⟩ := timerFire_timers_of_racing racerId rand s hr
      rw [hd]
      intro heq
      have := congrArg List.length heq
      simp at this
  · intro r hfind hfin
    rw [timerFire_racers, velocityChange_of_finished _ _ _ _ r hfind hfin]
  · intro hfind
    rw [timerFire_racers, velocityChange_of_absent _ _ _ _ hfind]

/-- C11 fails as stated: in `demoSession` (phase RACING) racer 1 is finished, and a
firing of its timer still records a further timer for racer 1; in `endedSession` (phase
FINISHED) racer 2 is running, and a firing of its timer gives it a new velocity. -/
theorem perturbation_chain_counterexample :
    demoSession.gameStateRef = Phase.RACING ∧
    demoSession.racers.find? (fun x => x.id == 1) = some (demoRacer 1 true) ∧
    demoSession.velocityChangeTimers = [] ∧
    (timerFire 1 halfRand demoSession).velocityChangeTimers
      = [{ racerId := 1, delay := fin 400 }] ∧
    endedSession.gameStateRef = Phase.FINISHED ∧
    endedSession.racers.map (fun r => (r.id, r.finished, r.vx, r.vy))
      = [(1, true, fin 0.5, fin (-0.5)), (2, false, fin 0.5, fin (-0.5))] ∧
    (timerFire 2 halfRand endedSession).racers.map (fun r => (r.id, r.finished, r.vx, r.vy))
      = [(1, true, fin 0.5, fin (-0.5)), (2, false, fin 0.55, fin (-0.55))] := by
  refine ⟨rfl, by decide!, rfl, by decide!, rfl, by decide!, by decide!⟩

/-! ## The start of a race -/

/-- With a difficulty above 8 a reachable race never leaves phase RACING. -/
theorem reachable_never_finished (t : Session) (h : Reachable t) (hd : 8 < t.difficulty) :
    t.gameState = Phase.RACING := by
  obtain ⟨hphase, _, hfin⟩ := reachable_phase t h (by omega)
  rcases hphase with h1 | h1
  · exact h1
  · have h2 := hfin h1
    have h3 := reachable_rankings_length t h
    omega

/-- With a difficulty of at most 0 the first tick of a started race ends it. -/
theorem first_tick_finishes (hc : HorseConfig) (w ht : JSNum) (rand rand2 : Nat → JSNum)
    (s : Session) (c : Canvas) (hd : s.difficulty ≤ 0) :
    (gameLoop (some c) rand2 (onClickFighter hc w ht rand s)).gameState = Phase.FINISHED := by
  rw [gameLoop_gameState c rand2 _ (onClickFighter_gameState hc w ht rand s),
    onClickFighter_difficulty]
  have : ((gameLoop (some c) rand2 (onClickFighter hc w ht rand s)).finishedRankings.length : Int)
      ≥ s.difficulty := by
    have := Int.natCast_nonneg
      (gameLoop (some c) rand2 (onClickFighter hc w ht rand s)).finishedRankings.length
    omega
  rw [if_pos this]

/-- C12, as the code has it: the handler of a fighter button validates nothing.  For
every roster entry, every viewport, every draws and every session, whatever its
difficulty, the click sets the bet to the id of the entry, replaces the racers by a fresh
seeding of the roster, clears the rankings, keeps the difficulty and moves the phase to
RACING.  The tick uses the difficulty as it is: with a difficulty of at most 0 the
first tick ends the race, and with a difficulty above 8 the race never ends. -/
theorem start_race_unvalidated (hc : HorseConfig) (w ht : JSNum) (rand : Nat → JSNum)
    (s : Session) :
    (onClickFighter hc w ht rand s).gameState = Phase.RACING ∧
    (onClickFighter hc w ht rand s).gameStateRef = Phase.RACING ∧
    (onClickFighter hc w ht rand s).bet = some hc.id ∧
    (onClickFighter hc w ht rand s).finishedRankings = [] ∧
    (onClickFighter hc w ht rand s).racers = (initializeRace w ht rand s).1 ∧
    (onClickFighter hc w ht rand s).racers.map Racer.id = HORSES_CONFIG.map HorseConfig.id ∧
    (onClickFighter hc w ht rand s).difficulty = s.difficulty ∧
    (s.difficulty ≤ 0 → ∀ (c : Canvas) (rand2 : Nat → JSNum),
      (gameLoop (some c) rand2 (onClickFighter hc w ht rand s)).gameState = Phase.FINISHED) ∧
    (∀ t, Reachable t → 8 < t.difficulty → t.gameState = Phase.RACING) := by
  refine ⟨rfl, rfl, rfl, rfl, rfl, ?_, rfl, ?_, reachable_never_finished⟩
  · rw [onClickFighter_racers, spawnRacers_ids]
  · intro hd c rand2
    exact first_tick_finishes hc w ht rand rand2 s c hd

/-- C12 fails as stated: the click is not rejected for an id outside the roster nor for a
difficulty outside `[1, 8]`.  With difficulty 9 the race of the 1 × 1 viewport is still
RACING after all eight racers are ranked; with difficulty 0 the first tick on a
1000 × 800 viewport ends the race with no racer ranked. -/
theorem start_race_unvalidated_counterexample :
    demoSetup.gameState = Phase.SETUP ∧
    (onClickFighter strangerConfig (fin 1) (fin 1) demoRand demoSetup).gameState
      = Phase.RACING ∧
    (onClickFighter strangerConfig (fin 1) (fin 1) demoRand demoSetup).bet = some 99 ∧
    highSetup.difficulty = 9 ∧
    (onClickFighter pinkPhantom (fin 1) (fin 1) demoRand highSetup).gameState = Phase.RACING ∧
    (gameLoop (some ⟨fin 1, fin 1⟩) demoRand
      (onClickFighter pinkPhantom (fin 1) (fin 1) demoRand highSetup)).finishedRankings
      = [1, 2, 3, 4, 5, 6, 7, 8] ∧
    (gameLoop (some ⟨fin 1, fin 1⟩) demoRand
      (onClickFighter pinkPhantom (fin 1) (fin 1) demoRand highSetup)).gameState
      = Phase.RACING ∧
    lowSetup.difficulty = 0 ∧
    (onClickFighter pinkPhantom (fin 1000) (fin 800) halfRand lowSetup).gameState
      = Phase.RACING ∧
    (gameLoop (some ⟨fin 1000, fin 800⟩) halfRand
      (onClickFighter pinkPhantom (fin 1000) (fin 800) halfRand lowSetup)).finishedRankings
      = [] ∧
    (gameLoop (some ⟨fin 1000, fin 800⟩) halfRand
      (onClickFighter pinkPhantom (fin 1000) (fin 800) halfRand lowSetup)).gameState
      = Phase.FINISHED := by
  refine ⟨rfl, rfl, rfl, rfl, rfl, by decide!, by decide!, rfl, rfl, by decide!, by decide!⟩

/-! ## Finite arithmetic of the tick -/

theorem moveRacer_eq (W H : JSNum) (r : Racer) (u1 u2 : JSNum) :
    moveRacer W H r u1 u2 = wallBounce W H (driftRacer W r u1 u2) := rfl

theorem fin_div_fin (a b : ℚ) (hb : b ≠ 0) : fin a / fin b = fin (a / b) := by
  show JSNum.div (fin a) (fin b) = fin (a / b)
  simp [JSNum.div, hb]

theorem lt_fin_fin (a b : ℚ) : JSNum.lt (fin a) (fin b) = decide (a < b) := rfl

theorem max_fin_fin (a b : ℚ) : JSNum.max (fin a) (fin b) = fin (max a b) := by
  simp only [JSNum.max, lt_fin_fin]
  by_cases h : a < b
  · simp [h, max_eq_right (le_of_lt h)]
  · simp [h, max_eq_left (not_lt.1 h)]

theorem sqrtQ_nonneg (q : ℚ) : 0 ≤ sqrtQ q := by
  unfold sqrtQ
  positivity

theorem sqrtQ_pos (q : ℚ) (hq : 0 < q) : 0 < sqrtQ q := by
  unfold sqrtQ
  have hnum : 0 < q.num := Rat.num_pos.2 hq
  have hn : 0 < q.num.toNat := by omega
  have hden : 0 < q.den := q.den_pos
  have hprod : 0 < q.num.toNat * q.den * 4 ^ 53 := by positivity
  have hs : 0 < isqrt (q.num.toNat * q.den * 4 ^ 53) := by
    rw [isqrt_eq_sqrt]
    exact Nat.sqrt_pos.2 hprod
  have hs' : (0 : ℚ) < (isqrt (q.num.toNat * q.den * 4 ^ 53) : ℚ) := by exact_mod_cast hs
  have hden' : (0 : ℚ) < (q.den : ℚ) := by exact_mod_cast hden
  positivity

theorem sqrt_fin_of_nonneg (q : ℚ) (hq : 0 ≤ q) : JSNum.sqrt (fin q) = fin (sqrtQ q) := by
  simp [JSNum.sqrt, not_lt.2 hq]

/-- The squared distance of `(x, y)` to the goal corner `(w, 0)`. -/
theorem dist_sq_nonneg (w x y : ℚ) : 0 ≤ (w - x) * (w - x) + (0 - y) * (0 - y) := by
  nlinarith [mul_self_nonneg (w - x), mul_self_nonneg (0 - y)]

theorem dist_fin (w x y : ℚ) :
    JSNum.sqrt ((fin w - fin x) * (fin w - fin x) + (fin 0 - fin y) * (fin 0 - fin y))
      = fin (sqrtQ ((w - x) * (w - x) + (0 - y) * (0 - y))) := by
  simp only [fin_sub_fin, fin_mul_fin, fin_add_fin]
  exact sqrt_fin_of_nonneg _ (dist_sq_nonneg w x y)

theorem distToCorner_fin (w x y : ℚ) :
    distToCorner (fin w) (fin x) (fin y)
      = fin (sqrtQ ((w - x) * (w - x) + (0 - y) * (0 - y))) := by
  unfold distToCorner
  simp only [JSNum.pow, fin_sub_fin, fin_mul_fin, fin_add_fin, mul_one]
  exact sqrt_fin_of_nonneg _ (dist_sq_nonneg w x y)

/-- The drift step on finite numbers, away from the goal corner: all results are finite. -/
theorem driftRacer_fin (w x y vx vy a b : ℚ) (r : Racer)
    (hx : r.x = fin x) (hy : r.y = fin y) (hvx : r.vx = fin vx) (hvy : r.vy = fin vy)
    (hd : 0 < (w - x) * (w - x) + (0 - y) * (0 - y)) :
    ∃ x0 y0 vx0 vy0 : ℚ,
      driftRacer (fin w) r (fin a) (fin b) = { x := fin x0, y := fin y0, vx := fin vx0, vy := fin vy0 } ∧
      x0 = x + vx0 ∧ y0 = y + vy0 := by
  have hpos := sqrtQ_pos _ hd
  refine ⟨x + (vx + (w - x) / sqrtQ ((w - x) * (w - x) + (0 - y) * (0 - y)) * 0.02
        + (a - 0.5) * 0.3) * 0.998,
    y + (vy + (0 - y) / sqrtQ ((w - x) * (w - x) + (0 - y) * (0 - y)) * 0.02
        + (b - 0.5) * 0.3) * 0.998,
    (vx + (w - x) / sqrtQ ((w - x) * (w - x) + (0 - y) * (0 - y)) * 0.02
        + (a - 0.5) * 0.3) * 0.998,
    (vy + (0 - y) / sqrtQ ((w - x) * (w - x) + (0 - y) * (0 - y)) * 0.02
        + (b - 0.5) * 0.3) * 0.998, ?_, rfl, rfl⟩
  have hsq := sqrt_fin_of_nonneg _ (dist_sq_nonneg w x y)
  unfold driftRacer
  simp only [hx, hy, hvx, hvy, fin_sub_fin, fin_mul_fin, fin_add_fin, hsq,
    fin_div_fin _ _ (ne_of_gt hpos)]

/-- The wall bounce on finite numbers in a viewport with `w ≥ 0` and `h ≥ 0`: the
position is clamped into the viewport, and the velocity component of a clamped
coordinate is multiplied by `-0.8`. -/
theorem wallBounce_fin (w h x0 y0 vx0 vy0 : ℚ) (hw : 0 ≤ w) (hh : 0 ≤ h) :
    ∃ x1 y1 vx1 vy1 : ℚ,
      wallBounce (fin w) (fin h) { x := fin x0, y := fin y0, vx := fin vx0, vy := fin vy0 }
        = { x := fin x1, y := fin y1, vx := fin vx1, vy := fin vy1 } ∧
      0 ≤ x1 ∧ x1 ≤ w ∧ 0 ≤ y1 ∧ y1 ≤ h ∧
      (x0 < 0 → x1 = 0 ∧ vx1 = vx0 * (-0.8)) ∧
      (w < x0 → x1 = w ∧ vx1 = vx0 * (-0.8)) ∧
      (0 ≤ x0 → x0 ≤ w → x1 = x0 ∧ vx1 = vx0) ∧
      (y0 < 0 → y1 = 0 ∧ vy1 = vy0 * (-0.8)) ∧
      (h < y0 → y1 = h ∧ vy1 = vy0 * (-0.8)) ∧
      (0 ≤ y0 → y0 ≤ h → y1 = y0 ∧ vy1 = vy0) := by
  refine ⟨if w < (if x0 < 0 then 0 else x0) then w else (if x0 < 0 then 0 else x0),
    if h < (if y0 < 0 then 0 else y0) then h else (if y0 < 0 then 0 else y0),
    if w < (if x0 < 0 then 0 else x0) then (if x0 < 0 then vx0 * (-0.8) else vx0) * (-0.8)
      else (if x0 < 0 then vx0 * (-0.8) else vx0),
    if h < (if y0 < 0 then 0 else y0) then (if y0 < 0 then vy0 * (-0.8) else vy0) * (-0.8)
      else (if y0 < 0 then vy0 * (-0.8) else vy0), ?_, ?_⟩
  · unfold wallBounce
    by_cases h1 : x0 < 0 <;> by_cases h2 : w < x0 <;> by_cases h3 : y0 < 0 <;>
      by_cases h4 : h < y0 <;>
      simp [JSNum.gt, lt_fin_fin, h1, h2, h3, h4, not_lt.2 hw, not_lt.2 hh]
  · refine ⟨?_, ?_, ?_, ?_, ?_, ?_, ?_, ?_, ?_, ?_⟩
    · split_ifs <;> linarith
    · split_ifs <;> linarith
    · split_ifs <;> linarith
    · split_ifs <;> linarith
    · intro hlt
      simp [hlt, not_lt.2 hw]
    · intro hgt
      have hn : ¬ x0 < 0 := by linarith
      simp [hn, hgt]
    · intro h0 h1
      simp [not_lt.2 h0, not_lt.2 h1]
    · intro hlt
      simp [hlt, not_lt.2 hh]
    · intro hgt
      have hn : ¬ y0 < 0 := by linarith
      simp [hn, hgt]
    · intro h0 h1
      simp [not_lt.2 h0, not_lt.2 h1]

/-! ## The wall bounce -/

theorem dist_sq_pos (w x y : ℚ) (h : ¬ (x = w ∧ y = 0)) :
    0 < (w - x) * (w - x) + (0 - y) * (0 - y) := by
  by_contra hle
  have h0 := dist_sq_nonneg w x y
  have hz : (w - x) * (w - x) + (0 - y) * (0 - y) = 0 := le_antisymm (not_lt.1 hle) h0
  have h1 : (w - x) * (w - x) = 0 := by
    nlinarith [mul_self_nonneg (w - x), mul_self_nonneg (0 - y)]
  have h2 : (0 - y) * (0 - y) = 0 := by
    nlinarith [mul_self_nonneg (w - x), mul_self_nonneg (0 - y)]
  have hx : w - x = 0 := mul_self_eq_zero.1 h1
  have hy : 0 - y = 0 := mul_self_eq_zero.1 h2
  exact h ⟨by linarith, by linarith⟩

/-- The wall bounce keeps a racer in the viewport when all numbers are finite and the
racer is not exactly at the goal corner: for `w ≥ 0` and `h ≥ 0` the position after the
tick satisfies `0 ≤ x ≤ w` and `0 ≤ y ≤ h`, the velocity component of a clamped
coordinate is `-0.8` times the velocity that carried it out of bounds, and an unclamped
coordinate keeps its velocity. -/
theorem wall_reflection_finite (w h x y vx vy a b : ℚ) (r : Racer)
    (hw : 0 ≤ w) (hh : 0 ≤ h)
    (hx : r.x = fin x) (hy : r.y = fin y) (hvx : r.vx = fin vx) (hvy : r.vy = fin vy)
    (hf : r.finished = false) (hcorner : ¬ (x = w ∧ y = 0)) :
    ∃ x0 y0 vx0 vy0 x1 y1 vx1 vy1 : ℚ,
      driftRacer (fin w) r (fin a) (fin b)
        = { x := fin x0, y := fin y0, vx := fin vx0, vy := fin vy0 } ∧
      x0 = x + vx0 ∧ y0 = y + vy0 ∧
      (gameLoopRacer (fin w) (fin h) r (fin a) (fin b)).x = fin x1 ∧
      (gameLoopRacer (fin w) (fin h) r (fin a) (fin b)).y = fin y1 ∧
      (gameLoopRacer (fin w) (fin h) r (fin a) (fin b)).vx = fin vx1 ∧
      (gameLoopRacer (fin w) (fin h) r (fin a) (fin b)).vy = fin vy1 ∧
      0 ≤ x1 ∧ x1 ≤ w ∧ 0 ≤ y1 ∧ y1 ≤ h ∧
      (x0 < 0 ∨ w < x0 → vx1 = -0.8 * vx0) ∧
      (y0 < 0 ∨ h < y0 → vy1 = -0.8 * vy0) ∧
      (0 ≤ x0 → x0 ≤ w → x1 = x0 ∧ vx1 = vx0) ∧
      (0 ≤ y0 → y0 ≤ h → y1 = y0 ∧ vy1 = vy0) := by
  obtain ⟨x0, y0, vx0, vy0, hdrift, hx0, hy0⟩ :=
    driftRacer_fin w x y vx vy a b r hx hy hvx hvy (dist_sq_pos w x y hcorner)
  obtain ⟨x1, y1, vx1, vy1, hb, b1, b2, b3, b4, c1, c2, c3, c4, c5, c6⟩ :=
    wallBounce_fin w h x0 y0 vx0 vy0 hw hh
  obtain ⟨m1, m2, m3, m4⟩ := gameLoopRacer_motion (fin w) (fin h) r (fin a) (fin b) hf
  have hm : moveRacer (fin w) (fin h) r (fin a) (fin b)
      = { x := fin x1, y := fin y1, vx := fin vx1, vy := fin vy1 } := by
    rw [moveRacer_eq, hdrift, hb]
  refine ⟨x0, y0, vx0, vy0, x1, y1, vx1, vy1, hdrift, hx0, hy0, by rw [m1, hm], by rw [m2, hm],
    by rw [m3, hm], by rw [m4, hm], b1, b2, b3, b4, ?_, ?_, c3, c6⟩
  · rintro (hlt | hgt)
    · rw [(c1 hlt).2]; ring
    · rw [(c2 hgt).2]; ring
  · rintro (hlt | hgt)
    · rw [(c4 hlt).2]; ring
    · rw [(c5 hgt).2]; ring

/-- C13 fails on the code: the tick on the running racer `cornerRacer`, exactly at the
goal corner of a 1000 × 800 viewport, returns the position `(NaN, NaN)`, which is not in
the viewport; and in the race started on a 0 × 0 viewport every racer is at the corner,
so the first tick leaves all eight racers at `(NaN, NaN)`. -/
theorem wall_reflection_corner :
    (gameLoopRacer (fin 1000) (fin 800) cornerRacer (fin 0.5) (fin 0.5)).x = nan ∧
    (gameLoopRacer (fin 1000) (fin 800) cornerRacer (fin 0.5) (fin 0.5)).y = nan ∧
    JSNum.within 0 1000
      (gameLoopRacer (fin 1000) (fin 800) cornerRacer (fin 0.5) (fin 0.5)).x = false ∧
    JSNum.within 0 800
      (gameLoopRacer (fin 1000) (fin 800) cornerRacer (fin 0.5) (fin 0.5)).y = false ∧
    (gameLoop (some ⟨fin 0, fin 0⟩) halfRand zeroStarted).racers.map
        (fun r => (r.x, r.y, JSNum.within 0 0 r.x, JSNum.within 0 0 r.y, r.finished))
      = List.replicate 8 (nan, nan, false, false, false) := by
  obtain ⟨h1, h2, _, _, _⟩ :=
    corner_tick 1000 (fin 800) (fin 0.5) (fin 0.5) cornerRacer rfl rfl rfl
  refine ⟨h1, h2, by rw [h1]; rfl, by rw [h2]; rfl, by decide!⟩

/-! ## The divisor of the drift step -/

/-- Every racer of the new collection is the callback's result on a racer of the old,
with two draws of the stream. -/
theorem gameLoopMap_mem_rand (W H : JSNum) (rand : Nat → JSNum) (rs : List Racer) :
    ∀ n, ∀ r' ∈ (gameLoopMap W H rand n rs).1,
      ∃ r ∈ rs, ∃ i j, r' = gameLoopRacer W H r (rand i) (rand j) := by
  induction rs with
  | nil => intro n r' hr'; simp [gameLoopMap] at hr'
  | cons a rest ih =>
    intro n r' hr'
    by_cases h : a.finished = true
    · simp only [gameLoopMap, h, if_true, List.mem_cons] at hr'
      rcases hr' with h1 | h1
      · exact ⟨a, List.mem_cons_self _ _, _, _, h1⟩
      · obtain ⟨r, hr, i, j, hu⟩ := ih n r' h1
        exact ⟨r, List.mem_cons_of_mem _ hr, i, j, hu⟩
    · simp only [gameLoopMap, h, Bool.false_eq_true, if_false, List.mem_cons] at hr'
      rcases hr' with h1 | h1
      · exact ⟨a, List.mem_cons_self _ _, _, _, h1⟩
      · obtain ⟨r, hr, i, j, hu⟩ := ih (n + 2) r' h1
        exact ⟨r, List.mem_cons_of_mem _ hr, i, j, hu⟩

theorem velocityChange_mem_velocity (racerId : Nat) (rs : List Racer) (u1 u2 : JSNum) :
    ∀ r' ∈ (velocityChange racerId rs u1 u2).1,
      ∃ r ∈ rs, r'.finished = r.finished ∧ r'.x = r.x ∧ r'.y = r.y ∧
        ((r'.vx = r.vx ∧ r'.vy = r.vy) ∨
          (r'.vx = (u1 * fin 0.5) + fin 0.3 ∧ r'.vy = -(u2 * fin 0.5) - fin 0.3)) := by
  unfold velocityChange
  split
  · intro r' hr'; exact ⟨r', hr', rfl, rfl, rfl, Or.inl ⟨rfl, rfl⟩⟩
  · split_ifs
    · intro r' hr'; exact ⟨r', hr', rfl, rfl, rfl, Or.inl ⟨rfl, rfl⟩⟩
    · intro r' hr'
      obtain ⟨x, hx, rfl⟩ := List.mem_map.1 hr'
      refine ⟨x, hx, ?_⟩
      split_ifs
      · exact ⟨rfl, rfl, rfl, Or.inr ⟨rfl, rfl⟩⟩
      · exact ⟨rfl, rfl, rfl, Or.inl ⟨rfl, rfl⟩⟩

/-- A safe racer is at a positive squared distance from the goal corner. -/
theorem safeRacer_dist_sq_pos (w h : ℚ) (hmax : 0 < max w h) (r : Racer)
    (hs : SafeRacer w h r) :
    ∃ x y : ℚ, r.x = fin x ∧ r.y = fin y ∧ 0 < (w - x) * (w - x) + (0 - y) * (0 - y) := by
  obtain ⟨x, y, vx, vy, hx, hy, _, _, hcase⟩ := hs
  refine ⟨x, y, hx, hy, ?_⟩
  rcases hcase with ⟨a, b, ha0, ha1, hb0, hb1, hxa, hyb⟩ | hfar
  · apply TaserDerby.dist_sq_pos
    rintro ⟨hxw, hy0⟩
    by_cases hw : w = 0
    · have hh : 0 < h := by
        rcases lt_max_iff.1 hmax with h1 | h1
        · exact absurd hw (ne_of_gt h1)
        · exact h1
      rw [hyb] at hy0
      nlinarith
    · apply hw
      rw [hxa] at hxw
      have h1 : w * (1 - a * 0.10) = 0 := by linarith
      rcases mul_eq_zero.1 h1 with h2 | h2
      · exact h2
      · exfalso; linarith
  · have hR : 0 < 0.15 * max w h := by positivity
    have hpos : 0 < sqrtQ ((w - x) * (w - x) + (0 - y) * (0 - y)) := lt_of_lt_of_le hR hfar
    rcases (dist_sq_nonneg w x y).lt_or_eq with h1 | h1
    · exact h1
    · rw [← h1, sqrtQ_zero] at hpos
      exact absurd hpos (lt_irrefl _)

theorem spawnRacers_safe (w h : ℚ) (rand : Nat → JSNum) (hr : unitDraws rand)
    (l : List HorseConfig) :
    ∀ n, ∀ r ∈ spawnRacers (fin w) (fin h) rand n l, SafeRacer w h r := by
  induction l with
  | nil => intro n r hr'; simp [spawnRacers] at hr'
  | cons c rest ih =>
    intro n r hr'
    rcases List.mem_cons.1 hr' with h1 | h1
    · obtain ⟨a, ha, ha0, ha1⟩ := hr n
      obtain ⟨b, hb, hb0, hb1⟩ := hr (n + 1)
      obtain ⟨c', hc, _, _⟩ := hr (n + 2)
      obtain ⟨d, hd, _, _⟩ := hr (n + 3)
      rw [h1]
      refine ⟨a * (w * 0.10), h * 0.90 + b * (h * 0.10), c' * 0.5 + 0.3, -(d * 0.5) - 0.3,
        ?_, ?_, ?_, ?_, Or.inl ⟨a, b, ha0, ha1, hb0, hb1, rfl, rfl⟩⟩ <;>
        simp [spawnRacer, ha, hb, hc, hd]
    · exact ih _ r h1

/-- The tick keeps a running racer safe: it stays finite, and when it is not finished by
the tick it is at a distance of at least the goal radius. -/
theorem gameLoopRacer_safe (w h a b : ℚ) (hmax : 0 < max w h) (r : Racer)
    (hs : SafeRacer w h r) (hf : r.finished = false)
    (hf' : (gameLoopRacer (fin w) (fin h) r (fin a) (fin b)).finished = false) :
    SafeRacer w h (gameLoopRacer (fin w) (fin h) r (fin a) (fin b)) := by
  obtain ⟨x, y, hx, hy, hd⟩ := safeRacer_dist_sq_pos w h hmax r hs
  obtain ⟨_, _, vx, vy, hx2, hy2, hvx, hvy, _⟩ := hs
  obtain ⟨x0, y0, vx0, vy0, hdrift, _, _⟩ := driftRacer_fin w x y vx vy a b r hx hy hvx hvy hd
  have hb : ∃ x1 y1 vx1 vy1 : ℚ,
      wallBounce (fin w) (fin h) { x := fin x0, y := fin y0, vx := fin vx0, vy := fin vy0 }
        = { x := fin x1, y := fin y1, vx := fin vx1, vy := fin vy1 } := by
    unfold wallBounce
    by_cases h1 : x0 < 0 <;> by_cases h2 : w < x0 <;> by_cases h3 : y0 < 0 <;>
      by_cases h4 : h < y0 <;> by_cases h5 : w < 0 <;> by_cases h6 : h < 0 <;>
      simp [JSNum.gt, lt_fin_fin, h1, h2, h3, h4, h5, h6]
  obtain ⟨x1, y1, vx1, vy1, hb⟩ := hb
  have hm : moveRacer (fin w) (fin h) r (fin a) (fin b)
      = { x := fin x1, y := fin y1, vx := fin vx1, vy := fin vy1 } := by
    rw [moveRacer_eq, hdrift, hb]
  obtain ⟨m1, m2, m3, m4⟩ := gameLoopRacer_motion (fin w) (fin h) r (fin a) (fin b) hf
  refine ⟨x1, y1, vx1, vy1, by rw [m1, hm], by rw [m2, hm], by rw [m3, hm], by rw [m4, hm],
    Or.inr ?_⟩
  rw [gameLoopRacer_finished (fin w) (fin h) r (fin a) (fin b) hf, hm] at hf'
  simp only [distToCorner_fin, GOAL_RADIUS, max_fin_fin, fin_mul_fin, lt_fin_fin,
    decide_eq_false_iff_not, not_lt] at hf'
  linarith

theorem reachableAt_safe (w h : ℚ) (hmax : 0 < max w h) (s : Session)
    (hs : ReachableAt w h s) : ∀ r ∈ s.racers, r.finished = false → SafeRacer w h r := by
  induction hs with
  | start s0 hc rand hr =>
    intro r hmem _
    rw [onClickFighter_racers] at hmem
    exact spawnRacers_safe w h rand hr _ _ r hmem
  | tick s rand hr _ ih =>
    by_cases hrace : s.gameState = Phase.RACING
    · rw [gameLoop_racers _ rand s hrace]
      intro r' hmem hf'
      obtain ⟨r, hrmem, i, j, rfl⟩ := gameLoopMap_mem_rand _ _ _ _ _ r' hmem
      cases hf : r.finished with
      | true =>
        rw [gameLoopRacer_of_finished _ _ _ _ _ hf] at hf'
        rw [hf] at hf'
        cases hf'
      | false =>
        obtain ⟨a, ha, _, _⟩ := hr i
        obtain ⟨b, hb, _, _⟩ := hr j
        rw [ha, hb] at hf' ⊢
        exact gameLoopRacer_safe w h a b hmax r (ih r hrmem hf) hf hf'
    · rw [gameLoop_of_not_racing _ _ _ hrace]; exact ih
  | fire s racerId rand hr _ ih =>
    rw [timerFire_racers]
    intro r' hmem hf'
    obtain ⟨r, hrmem, hfin, hx, hy, hv⟩ := velocityChange_mem_velocity _ _ _ _ r' hmem
    obtain ⟨x, y, vx, vy, hx2, hy2, hvx, hvy, hcase⟩ := ih r hrmem (hfin ▸ hf')
    rcases hv with ⟨h1, h2⟩ | ⟨h1, h2⟩
    · exact ⟨x, y, vx, vy, hx.trans hx2, hy.trans hy2, h1.trans hvx, h2.trans hvy, hcase⟩
    · obtain ⟨a, ha, _, _⟩ := hr s.randIx
      obtain ⟨b, hb, _, _⟩ := hr (s.randIx + 1)
      refine ⟨x, y, a * 0.5 + 0.3, -(b * 0.5) - 0.3, hx.trans hx2, hy.trans hy2, ?_, ?_, hcase⟩
      · rw [h1, ha]; rfl
      · rw [h2, hb]; simp

/-- C15 (the drift step never divides by zero on reachable states): on a viewport with
`max w h > 0` that stays the same during the race, and with draws in `[0, 1)`, every
unfinished racer of every session reachable from the start of the race by ticks and
timer firings has a finite position, and the divisor `dist` of the drift step is a
finite number greater than 0; the racer is either at a spawn position or at a distance
of at least `0.15 * max w h` from the goal corner. -/
theorem drift_divisor_nonzero (w h : ℚ) (s : Session) (hmax : 0 < max w h)
    (hs : ReachableAt w h s) :
    ∀ r ∈ s.racers, r.finished = false →
      ∃ x y d : ℚ, r.x = fin x ∧ r.y = fin y ∧
        JSNum.sqrt ((fin w - r.x) * (fin w - r.x) + (fin 0 - r.y) * (fin 0 - r.y)) = fin d ∧
        0 < d ∧
        ((∃ a b : ℚ, 0 ≤ a ∧ a < 1 ∧ 0 ≤ b ∧ b < 1 ∧
            x = a * (w * 0.10) ∧ y = h * 0.90 + b * (h * 0.10)) ∨
          0.15 * max w h ≤ d) := by
  intro r hmem hf
  have hsafe := reachableAt_safe w h hmax s hs r hmem hf
  obtain ⟨x, y, hx, hy, hd⟩ := safeRacer_dist_sq_pos w h hmax r hsafe
  obtain ⟨x', y', _, _, hx', hy', _, _, hcase⟩ := hsafe
  have ex : x' = x := by
    have := hx'.symm.trans hx
    exact JSNum.fin.inj this
  have ey : y' = y := by
    have := hy'.symm.trans hy
    exact JSNum.fin.inj this
  subst ex
  subst ey
  refine ⟨x', y', sqrtQ ((w - x') * (w - x') + (0 - y') * (0 - y')), hx, hy, ?_,
    sqrtQ_pos _ hd, hcase⟩
  rw [hx, hy]
  exact dist_fin w x' y'

/-- The divisor of the drift step for racer 1 after the first tick of the race
`fieldStarted`, on a 1000 × 800 viewport with all draws 1/2. -/
theorem drift_divisor_nonzero_witness :
    ∃ x y d : ℚ, fieldRacer.x = fin x ∧ fieldRacer.y = fin y ∧
      JSNum.sqrt ((fin 1000 - fieldRacer.x) * (fin 1000 - fieldRacer.x)
        + (fin 0 - fieldRacer.y) * (fin 0 - fieldRacer.y)) = fin d ∧
      0 < d ∧
      ((∃ a b : ℚ, 0 ≤ a ∧ a < 1 ∧ 0 ≤ b ∧ b < 1 ∧
          x = a * (1000 * 0.10) ∧ y = 800 * 0.90 + b * (800 * 0.10)) ∨
        0.15 * max 1000 800 ≤ d) :=
  drift_divisor_nonzero 1000 800 _ (by norm_num)
    (ReachableAt.tick _ halfRand (fun _ => ⟨0.5, rfl, by norm_num, by norm_num⟩)
      (ReachableAt.start demoSetup pinkPhantom halfRand
        (fun _ => ⟨0.5, rfl, by norm_num, by norm_num⟩)))
    fieldRacer (by decide!) (by decide!)

theorem fieldStarted_running :
    (gameLoop (some { width := fin 1000, height := fin 800 }) halfRand
      fieldStarted).racers.map (fun r => r.finished) = List.replicate 8 false := by
  decide!

/-! ## Frames of an earlier render -/

theorem gameLoop_eq_frame (canvas : Option Canvas) (rand : Nat → JSNum) (s : Session) :
    gameLoop canvas rand s = gameLoopFrame s.closure canvas rand s := rfl

/-- C8 fails on the code: on a 1000 × 800 viewport the callback that captured the empty
rankings of `midSession` runs two frames in a row, the second before React has rendered
again.  Racer 5 finishes in the first frame and is ranked: `[5]`.  Racer 2 finishes in
the second frame, and the frame rebuilds the rankings from the captured empty list in
collection order: `[2, 5]`.  The rankings `[5]` before the frame are not a prefix of the
rankings after it, and racer 2 is ranked before racer 5, which finished a frame earlier.
A second frame run by the callback of the latest render gives `[5, 2]`. -/
theorem stale_frame_reorders :
    midSession.closure.gameState = Phase.RACING ∧
    midSession.closure.finishedRankings = [] ∧
    midFrame1.racers.map (fun r => (r.id, r.finished))
      = [(1, false), (2, false), (3, false), (4, false), (5, true), (6, false), (7, false),
         (8, false)] ∧
    midFrame1.finishedRankings = [5] ∧
    midFrame2.racers.map (fun r => (r.id, r.finished))
      = [(1, false), (2, true), (3, false), (4, false), (5, true), (6, false), (7, false),
         (8, false)] ∧
    midFrame2.finishedRankings = [2, 5] ∧
    ¬ midFrame1.finishedRankings <+: midFrame2.finishedRankings ∧
    (gameLoopFrame midFrame1.closure (some { width := fin 1000, height := fin 800 }) halfRand
      midFrame1).finishedRankings = [5, 2] := by
  have h1 : midFrame1.finishedRankings = [5] := by decide!
  have h2 : midFrame2.finishedRankings = [2, 5] := by decide!
  refine ⟨rfl, rfl, by decide!, h1, by decide!, h2, ?_, by decide!⟩
  rw [h1, h2]
  decide

end TaserDerby
